import Mathlib

/-!
Verification of the reflection layer (`src/reflect/value.go`) of the
tinygo repository.  The Go code is shallowly embedded: machine words are
natural numbers kept below `2 ^ 64` (we model a 64-bit host, so
`unsafe.Sizeof(uintptr(0)) = 8`), raw memory is a byte-addressed store,
and every operation of `value.go` is translated into an executable Lean
function over an explicit state.  Functions that can panic in Go return
`Except RErr`; stateful operations additionally return the state reached
at the moment of the panic, so that side effects applied before a panic
remain observable, exactly as in Go.

The type-descriptor layer (`type.go`) and the runtime hashmap engine are
not part of the given sources; the few facts the claims need about them
are modelled from the specification and marked as such in doc comments.
-/

/-- Kind tags of the reflection layer, mirroring the `Kind` enumeration
used by `value.go` (`Invalid` is the kind of the zero `Value`). -/
inductive Kind where
  | Invalid
  | Bool
  | Int | Int8 | Int16 | Int32 | Int64
  | Uint | Uint8 | Uint16 | Uint32 | Uint64 | Uintptr
  | Float32 | Float64
  | Complex64 | Complex128
  | String
  | UnsafePointer
  | Chan | Func | Interface | Map | Ptr | Slice | Array | Struct
deriving DecidableEq, Repr

mutual
/-- Type descriptors.  `type.go` is not among the given sources; the shape
below is modelled from the spec (§3): a descriptor exposes a kind tag, a
byte size, and, where applicable, element type, key type, array length and
a field list.  A struct field carries its package path (non-empty exactly
when the field is non-exported), its type and its byte offset, matching
the triple read by `Value.Field`.  Because descriptors are interned and
compared by pointer identity, structural equality of this model is the
faithful translation of the source's pointer comparison. -/
inductive RType where
  | prim (k : Kind) (size : Nat) (binary : Bool)
  | ptr (elem : RType)
  | slice (elem : RType)
  | array (elem : RType) (n : Nat)
  | strg
  | mapt (key elem : RType)
  | strukt (size : Nat) (fields : FieldList)
  | iface
deriving DecidableEq, Repr
inductive FieldList where
  | nil
  | cons (pkgPath : String) (typ : RType) (offset : Nat) (rest : FieldList)
deriving DecidableEq, Repr
end

/-- Number of declared fields in a field list. -/
def FieldList.length : FieldList → Nat
  | .nil => 0
  | .cons _ _ _ rest => rest.length + 1

/-- The i-th field of a field list: package path, type, byte offset. -/
def FieldList.get : FieldList → Nat → Option (String × RType × Nat)
  | .nil, _ => none
  | .cons p t o _, 0 => some (p, t, o)
  | .cons _ _ _ rest, i + 1 => rest.get i

/-- Kind tag of a type descriptor (`rawType.Kind`). -/
def RType.kind : RType → Kind
  | .prim k _ _ => k
  | .ptr _ => .Ptr
  | .slice _ => .Slice
  | .array _ _ => .Array
  | .strg => .String
  | .mapt _ _ => .Map
  | .strukt _ _ => .Struct
  | .iface => .Interface

/-- Byte size of a type (`rawType.Size`); pointers are one 64-bit word,
slice headers are three words, string and interface headers two words. -/
def RType.size : RType → Nat
  | .prim _ s _ => s
  | .ptr _ => 8
  | .slice _ => 24
  | .array e n => e.size * n
  | .strg => 16
  | .mapt _ _ => 8
  | .strukt s _ => s
  | .iface => 16

/-- Element type (`rawType.elem`); only called by the source on kinds that
have one, so the value on other kinds is irrelevant junk. -/
def RType.elem : RType → RType
  | .ptr e => e
  | .slice e => e
  | .array e _ => e
  | .mapt _ e => e
  | .strg => .prim .Uint8 1 true
  | t => t

/-- Key type of a map descriptor (`rawType.key`). -/
def RType.key : RType → RType
  | .mapt k _ => k
  | t => t

/-- Array length / field count data (`rawType.Len`). -/
def RType.len : RType → Nat
  | .array _ n => n
  | _ => 0

/-- Field list of a struct descriptor. -/
def RType.fields : RType → FieldList
  | .strukt _ fs => fs
  | _ => .nil

/-- Modelled from the spec: the predicate "is this type's equality pure
byte comparison", supplied by the missing type-descriptor layer.  Per
§4.3, string-kind keys have their own strategy, and types containing
floating-point or interfaces are not binary comparable. -/
def RType.isBinary : RType → Bool
  | .prim k _ b =>
    match k with
    | .Float32 | .Float64 | .Complex64 | .Complex128 => false
    | .String => false
    | _ => b
  | .ptr _ => true
  | _ => false

/-- Modelled from the spec: the external assignability predicate
(`AssignableTo`), which §6 says is trusted without re-verification; with
interned descriptors, identical types are assignable, and the claims only
exercise the identical / distinct cases, so identity is the model. -/
def RType.assignableTo (a b : RType) : Bool := a == b

/-- Modelled from the spec: the textual name of a type descriptor
(`rawType.String`, in the missing `type.go`).  Only its presence inside
the `"<T Value>"` placeholder matters for the claims. -/
def RType.name : RType → String
  | .prim k _ _ =>
    match k with
    | .Int64 => "int64"
    | .Uint8 => "uint8"
    | .Bool => "bool"
    | _ => "prim"
  | .ptr _ => "ptr"
  | .slice _ => "slice"
  | .array _ _ => "array"
  | .strg => "string"
  | .mapt _ _ => "map"
  | .strukt _ _ => "struct"
  | .iface => "interface"

/-- The `pointerTo` operation used by `Value.Addr` and `reflect.New`. -/
def pointerTo (t : RType) : RType := RType.ptr t

/-- The interned descriptor for `uint8`, used by string indexing. -/
def uint8Type : RType := .prim .Uint8 1 true

/-- Capability bits of a handle: `valueFlagIndirect` and
`valueFlagExported` of the source, modelled as two booleans. -/
structure Flags where
  indirect : Bool
  exported : Bool
deriving DecidableEq, Repr

/-- A dynamic value handle: `reflect.Value` of the source.  `typecode` is
`none` for the zero `Value` (nil type descriptor) and `value` is the raw
word of the `unsafe.Pointer` field: an address when the value lives behind
a pointer, otherwise the value bits packed into the word. -/
structure Value where
  typecode : Option RType
  value : Nat
  flags : Flags
deriving DecidableEq, Repr

/-- The zero `Value{}`: nil descriptor, nil pointer, no flags. -/
def Value.zero : Value := ⟨none, 0, ⟨false, false⟩⟩

/-- Kind of a handle; a nil descriptor has kind `Invalid` (behaviour of
`rawType.Kind` on nil, modelled from the spec's zero-handle clause). -/
def Value.kind (v : Value) : Kind :=
  match v.typecode with
  | none => .Invalid
  | some t => t.kind

/-- Size of the handle's type. -/
def Value.tsize (v : Value) : Nat :=
  match v.typecode with
  | none => 0
  | some t => t.size

/-- The `isIndirect` accessor. -/
def Value.isIndirect (v : Value) : Bool := v.flags.indirect

/-- The `isExported` accessor. -/
def Value.isExported (v : Value) : Bool := v.flags.exported

/-- The `CanSet` accessor: both flag bits must be set. -/
def Value.canSet (v : Value) : Bool := v.flags.indirect && v.flags.exported

/-- The `CanAddr` accessor: the indirect bit alone. -/
def Value.canAddr (v : Value) : Bool := v.flags.indirect

/-- The `CanInterface` accessor. -/
def Value.canInterface (v : Value) : Bool := v.flags.exported

/-- A type-erased container (`interface{}` value): the pair produced by
`decomposeInterface` and consumed by `composeInterface`. -/
structure EFace where
  typ : Option RType
  word : Nat
deriving DecidableEq, Repr

/-- Byte-addressed raw memory plus a bump allocator cursor.  Interface
values stored in memory are kept in a parallel heap `ifaces`, read where
the source does `*(*interface{})(p)`. -/
structure Mem where
  bytes : Nat → Nat
  ifaces : Nat → EFace
  nextFree : Nat

/-- A byte read; memory cells are reduced mod 256 on every read so that a
cell always yields a byte, as `*(*uint8)(p)` does. -/
def Mem.byteAt (m : Mem) (a : Nat) : Nat := m.bytes a % 256

/-- Store one byte. -/
def Mem.writeByte (m : Mem) (a b : Nat) : Mem :=
  { m with bytes := fun x => if x = a then b % 256 else m.bytes x }

/-- Store a list of bytes at consecutive addresses. -/
def Mem.storeBytes (m : Mem) (a : Nat) : List Nat → Mem
  | [] => m
  | b :: bs => (m.writeByte a b).storeBytes (a + 1) bs

/-- Read `n` consecutive bytes, lowest address first. -/
def Mem.loadN (m : Mem) (a : Nat) : Nat → List Nat
  | 0 => []
  | n + 1 => m.byteAt a :: m.loadN (a + 1) n

/-- Little-endian bytes of a word, lowest byte first. -/
def toBytes : Nat → Nat → List Nat
  | _, 0 => []
  | w, n + 1 => w % 256 :: toBytes (w / 256) n

/-- The source's `loadValue`: assemble `size` bytes starting at `ptr`
into a word, lowest byte first.  The source ORs each byte into bit
positions `8*i ..`; as the positions are disjoint this is the sum below. -/
def Mem.loadValue (m : Mem) (ptr : Nat) : Nat → Nat
  | 0 => 0
  | n + 1 => m.byteAt ptr + 256 * m.loadValue (ptr + 1) n

/-- The unboxing loop of `valueInterfaceUnsafe`: for `j := size; j != 0;
j--` shift the accumulator up a byte and OR in byte `j-1`; with disjoint
byte positions the OR is the addition below. -/
def Mem.unboxLoop (m : Mem) (p acc : Nat) : Nat → Nat
  | 0 => acc
  | j + 1 => m.unboxLoop p (acc * 256 + m.byteAt (p + j)) j

/-- The source's `maskAndShift`: cut `size` bytes out of a packed word at
byte offset `offset`. -/
def maskAndShift (value offset size : Nat) : Nat :=
  (value >>> (offset * 8)) &&& ((2 ^ 64 - 1) >>> ((8 - size) * 8))

/-- Load a full 64-bit word. -/
def Mem.loadWord (m : Mem) (a : Nat) : Nat := m.loadValue a 8

/-- Store a full 64-bit word. -/
def Mem.storeWord (m : Mem) (a w : Nat) : Mem := m.storeBytes a (toBytes w 8)

/-- Go's conversion of a 64-bit `int` to `uint`/`uintptr`: two's
complement reduction into `[0, 2^64)`. -/
def toU64 (x : Int) : Nat := (x % (2 ^ 64 : Int)).toNat

/-- Entries of the external associative map engine.  Modelled from the
spec (§4.3/§6): the engine is a keyed byte store whose three
key-comparison strategies appear as the three constructors. -/
inductive EKey where
  | str (s : List Nat)
  | bin (bytes : List Nat)
  | gen (t : Option RType) (w : Nat)
deriving DecidableEq, Repr

/-- Modelled from the spec: one engine map is an association list from
keys to stored value bytes. -/
abbrev EngineMap := List (EKey × List Nat)

/-- Modelled from the spec: engine lookup. -/
def lookupE : EngineMap → EKey → Option (List Nat)
  | [], _ => none
  | (k', v) :: rest, k => if k' = k then some v else lookupE rest k

/-- Modelled from the spec: remove every entry with the given key. -/
def removeE (l : EngineMap) (k : EKey) : EngineMap :=
  l.filter (fun e => e.1 ≠ k)

/-- Modelled from the spec: engine store (replacing any previous entry). -/
def insertE (l : EngineMap) (k : EKey) (v : List Nat) : EngineMap :=
  removeE l k ++ [(k, v)]

/-- The full machine state: raw memory plus the engine's map store; a map
reference is an index into `maps`. -/
structure RState where
  mem : Mem
  maps : List EngineMap

/-- The external allocator: returns the bump cursor as a fresh
zero-initialised block (the spec guarantees zeroed, non-aliasing
memory). -/
def RState.alloc (st : RState) (size : Nat) : RState × Nat :=
  let a := st.mem.nextFree
  (⟨{ st.mem with
        bytes := fun x => if a ≤ x ∧ x < a + size then 0 else st.mem.bytes x,
        nextFree := a + size }, st.maps⟩, a)

/-- Write raw bytes through the state. -/
def RState.store (st : RState) (a : Nat) (bs : List Nat) : RState :=
  ⟨st.mem.storeBytes a bs, st.maps⟩

/-- The `Value.pointer` helper: if the handle is indirect, the stored
word is loaded; otherwise the word itself is the pointer. -/
def Value.pointer (st : RState) (v : Value) : Nat :=
  if v.flags.indirect then st.mem.loadWord v.value else v.value

/-- Errors: `ValueError{Method, Kind}` panics and string panics of the
source, plus the runtime `slicePanic`. -/
inductive RErr where
  | valueError (method : String) (kind : Kind)
  | goPanic (msg : String)
  | sliceOutOfRange
deriving DecidableEq, Repr

deriving instance DecidableEq for Except

/-- Sign extension: the value of the low `bits` bits of a word read as a
two's complement integer (Go's `intN(uintptr(w))` reinterpretation). -/
def sext (bits w : Nat) : Int :=
  let m := w % 2 ^ bits
  if m < 2 ^ (bits - 1) then (m : Int) else (m : Int) - 2 ^ bits

/-- The `checkAddressable` panic message. -/
def notAddrErr : RErr := .goPanic "reflect: value is not addressable"

/-- The `Value.Bool` reader. -/
def Value.boolR (st : RState) (v : Value) : Except RErr Bool :=
  match v.kind with
  | .Bool =>
    if v.flags.indirect then .ok (st.mem.byteAt v.value != 0)
    else .ok (v.value != 0)
  | k => .error (.valueError "Bool" k)

/-- The `Value.Int` reader on a 64-bit host: fixed-width loads for
indirect values, truncating sign-extending reinterpretation of the packed
word otherwise. -/
def Value.intR (st : RState) (v : Value) : Except RErr Int :=
  match v.kind with
  | .Int =>
    if v.flags.indirect then .ok (sext 64 (st.mem.loadValue v.value 8))
    else .ok (sext 64 v.value)
  | .Int8 =>
    if v.flags.indirect then .ok (sext 8 (st.mem.loadValue v.value 1))
    else .ok (sext 8 v.value)
  | .Int16 =>
    if v.flags.indirect then .ok (sext 16 (st.mem.loadValue v.value 2))
    else .ok (sext 16 v.value)
  | .Int32 =>
    if v.flags.indirect then .ok (sext 32 (st.mem.loadValue v.value 4))
    else .ok (sext 32 v.value)
  | .Int64 =>
    if v.flags.indirect then .ok (sext 64 (st.mem.loadValue v.value 8))
    else .ok (sext 64 v.value)
  | k => .error (.valueError "Int" k)

/-- The `Value.Uint` reader on a 64-bit host.  In the packed branches the
source widens `uintptr(v.value)` without masking, so the whole word is
returned there. -/
def Value.uintR (st : RState) (v : Value) : Except RErr Nat :=
  match v.kind with
  | .Uintptr =>
    if v.flags.indirect then .ok (st.mem.loadValue v.value 8) else .ok v.value
  | .Uint8 =>
    if v.flags.indirect then .ok (st.mem.loadValue v.value 1) else .ok v.value
  | .Uint16 =>
    if v.flags.indirect then .ok (st.mem.loadValue v.value 2) else .ok v.value
  | .Uint =>
    if v.flags.indirect then .ok (st.mem.loadValue v.value 8) else .ok v.value
  | .Uint32 =>
    if v.flags.indirect then .ok (st.mem.loadValue v.value 4) else .ok v.value
  | .Uint64 =>
    if v.flags.indirect then .ok (st.mem.loadValue v.value 8) else .ok v.value
  | k => .error (.valueError "Uint" k)

/-- The `Value.Float` reader, at the representation level: the bits the
source loads before the host's exact `float32`-to-`float64` widening
(floating-point arithmetic itself is not modelled). -/
def Value.floatR (st : RState) (v : Value) : Except RErr Nat :=
  match v.kind with
  | .Float32 =>
    if v.flags.indirect then .ok (st.mem.loadValue v.value 4)
    else .ok (v.value % 2 ^ 32)
  | .Float64 =>
    if v.flags.indirect then .ok (st.mem.loadValue v.value 8) else .ok v.value
  | k => .error (.valueError "Float" k)

/-- The `Value.Complex` reader, at the representation level. -/
def Value.complexR (st : RState) (v : Value) : Except RErr Nat :=
  match v.kind with
  | .Complex64 =>
    if v.flags.indirect then .ok (st.mem.loadValue v.value 8) else .ok v.value
  | .Complex128 => .ok (st.mem.loadValue v.value 16)
  | k => .error (.valueError "Complex" k)

/-- Result of `Value.String`: either the bytes of a real string value, or
the `"<T Value>"` placeholder literal the source returns on non-string
kinds. -/
inductive GoStr where
  | bytes (bs : List Nat)
  | lit (s : String)
deriving DecidableEq, Repr

/-- The `Value.String` reader.  A string header is always behind the
pointer; on any other kind the source deliberately returns a placeholder
string instead of panicking. -/
def Value.stringR (st : RState) (v : Value) : Except RErr GoStr :=
  match v.kind with
  | .String =>
    .ok (.bytes (st.mem.loadN (st.mem.loadWord v.value) (st.mem.loadWord (v.value + 8))))
  | _ =>
    .ok (.lit ("<" ++ (match v.typecode with | some t => t.name | none => "nil") ++ " Value>"))

/-- The `ValueOf` entry point: decompose a type-erased container into a
handle with `Exported` set and `Indirect` clear. -/
def ValueOfM (e : EFace) : Value := ⟨e.typ, e.word, ⟨false, true⟩⟩

/-- The `valueInterfaceUnsafe` composition: an interface payload is read
back directly; an indirect word-or-smaller value is first unboxed into the
word by the high-to-low byte loop; everything else composes as is. -/
def valueInterfaceUnsafe (st : RState) (v : Value) : EFace :=
  if v.kind = .Interface then st.mem.ifaces v.value
  else if v.flags.indirect = true ∧ v.tsize ≤ 8 then
    ⟨v.typecode, st.mem.unboxLoop v.value 0 v.tsize⟩
  else ⟨v.typecode, v.value⟩

/-- The `Value.Interface` reader: guarded by the exported flag. -/
def Value.interfaceOp (st : RState) (v : Value) : Except RErr EFace :=
  if v.flags.exported = false then
    .error (.goPanic "(reflect.Value).Interface: unexported")
  else .ok (valueInterfaceUnsafe st v)

/-- The `Value.SetBool` writer. -/
def Value.setBool (st : RState) (v : Value) (x : Bool) : RState × Except RErr Unit :=
  if v.flags.indirect = false then (st, .error notAddrErr)
  else match v.kind with
  | .Bool => (st.store v.value [if x then 1 else 0], .ok ())
  | k => (st, .error (.valueError "SetBool" k))

/-- The `Value.SetInt` writer: truncating two's complement stores. -/
def Value.setInt (st : RState) (v : Value) (x : Int) : RState × Except RErr Unit :=
  if v.flags.indirect = false then (st, .error notAddrErr)
  else match v.kind with
  | .Int => (st.store v.value (toBytes (toU64 x) 8), .ok ())
  | .Int8 => (st.store v.value (toBytes (toU64 x) 1), .ok ())
  | .Int16 => (st.store v.value (toBytes (toU64 x) 2), .ok ())
  | .Int32 => (st.store v.value (toBytes (toU64 x) 4), .ok ())
  | .Int64 => (st.store v.value (toBytes (toU64 x) 8), .ok ())
  | k => (st, .error (.valueError "SetInt" k))

/-- The `Value.SetUint` writer. -/
def Value.setUint (st : RState) (v : Value) (x : Nat) : RState × Except RErr Unit :=
  if v.flags.indirect = false then (st, .error notAddrErr)
  else match v.kind with
  | .Uint => (st.store v.value (toBytes x 8), .ok ())
  | .Uint8 => (st.store v.value (toBytes x 1), .ok ())
  | .Uint16 => (st.store v.value (toBytes x 2), .ok ())
  | .Uint32 => (st.store v.value (toBytes x 4), .ok ())
  | .Uint64 => (st.store v.value (toBytes x 8), .ok ())
  | .Uintptr => (st.store v.value (toBytes x 8), .ok ())
  | k => (st, .error (.valueError "SetUint" k))

/-- The `Value.SetFloat` writer; `x` is the `float64` bit pattern and
`narrow` the host's `float64`-to-`float32` conversion on bit patterns
(a host primitive, passed as a parameter). -/
def Value.setFloat (narrow : Nat → Nat) (st : RState) (v : Value) (x : Nat) :
    RState × Except RErr Unit :=
  if v.flags.indirect = false then (st, .error notAddrErr)
  else match v.kind with
  | .Float32 => (st.store v.value (toBytes (narrow x) 4), .ok ())
  | .Float64 => (st.store v.value (toBytes x 8), .ok ())
  | k => (st, .error (.valueError "SetFloat" k))

/-- The `Value.SetComplex` writer; `x` is the 128-bit `complex128`
pattern and `narrow` the host's narrowing to `complex64`. -/
def Value.setComplex (narrow : Nat → Nat) (st : RState) (v : Value) (x : Nat) :
    RState × Except RErr Unit :=
  if v.flags.indirect = false then (st, .error notAddrErr)
  else match v.kind with
  | .Complex64 => (st.store v.value (toBytes (narrow x) 8), .ok ())
  | .Complex128 => (st.store v.value (toBytes x 16), .ok ())
  | k => (st, .error (.valueError "SetComplex" k))

/-- The `Value.SetString` writer: stores the string header (data pointer
and length) of the argument. -/
def Value.setString (st : RState) (v : Value) (sdata slen : Nat) :
    RState × Except RErr Unit :=
  if v.flags.indirect = false then (st, .error notAddrErr)
  else match v.kind with
  | .String => (st.store v.value (toBytes sdata 8 ++ toBytes slen 8), .ok ())
  | k => (st, .error (.valueError "SetString" k))

/-- Assignability on handle descriptors (nil descriptors are never
assignable; the source would dereference nil there). -/
def tcAssignable : Option RType → Option RType → Bool
  | some a, some b => a.assignableTo b
  | _, _ => false

/-- The generic `Value.Set`: addressability, then assignability, then a
`memcpy` whose source is the packed word itself when the value is small
and not indirect. -/
def Value.setOp (st : RState) (v x : Value) : RState × Except RErr Unit :=
  if v.flags.indirect = false then (st, .error notAddrErr)
  else if tcAssignable v.typecode x.typecode = false then
    (st, .error (.goPanic "reflect: cannot set"))
  else
    let size := v.tsize
    let bs := if size ≤ 8 ∧ x.flags.indirect = false then toBytes x.value size
              else st.mem.loadN x.value size
    (st.store v.value bs, .ok ())

/-- The `Value.Addr` operation: flips the indirect bit (known set) and
wraps the descriptor in a pointer type. -/
def Value.addrOp (v : Value) : Except RErr Value :=
  if v.canAddr = false then .error (.goPanic "reflect.Value.Addr of unaddressable value")
  else .ok ⟨v.typecode.map pointerTo, v.value, ⟨xor v.flags.indirect true, v.flags.exported⟩⟩

/-- The `Value.Elem` operation: dereference a pointer (nil gives the zero
handle) or decompose an interface payload, clearing `Indirect`. -/
def Value.elemOp (st : RState) (v : Value) : Except RErr Value :=
  match v.typecode with
  | some (.ptr e) =>
    let p := v.pointer st
    if p = 0 then .ok Value.zero
    else .ok ⟨some e, p, ⟨true, v.flags.exported⟩⟩
  | some .iface =>
    let ef := st.mem.ifaces v.value
    .ok ⟨ef.typ, ef.word, ⟨false, v.flags.exported⟩⟩
  | _ => .error (.valueError "Elem" v.kind)

/-- The `Value.Field` operation, with the packing policy of the source:
direct reference when the parent is indirect or the field exceeds a word,
a nil reference for zero-sized fields, a load for small fields of a large
packed parent, and mask-and-shift for small fields of a packed parent. -/
def Value.fieldOp (st : RState) (v : Value) (i : Nat) : Except RErr Value :=
  match v.typecode with
  | some (.strukt ssize fs) =>
    match fs.get i with
    | none => .error (.goPanic "reflect: field index out of range")
    | some (pkgPath, ftype, offset) =>
      let flags : Flags := if pkgPath ≠ "" then ⟨v.flags.indirect, false⟩ else v.flags
      let fieldSize := ftype.size
      if v.flags.indirect = true ∨ fieldSize > 8 then
        .ok ⟨some ftype, v.value + offset, flags⟩
      else if fieldSize = 0 then
        .ok ⟨some ftype, 0, flags⟩
      else if ssize > 8 then
        .ok ⟨some ftype, st.mem.loadValue (v.value + offset) fieldSize, ⟨false, flags.exported⟩⟩
      else
        .ok ⟨some ftype, maskAndShift v.value offset fieldSize, flags⟩
  | _ => .error (.valueError "Field" v.kind)

/-- The `Value.Index` operation: slices bounds-check the live length and
return an always-indirect element handle; strings return a read-only
packed byte handle; arrays follow the field packing policy. -/
def Value.indexOp (st : RState) (v : Value) (i : Int) : Except RErr Value :=
  match v.typecode with
  | some (.slice e) =>
    let d := st.mem.loadWord v.value
    let len := st.mem.loadWord (v.value + 8)
    if len ≤ toU64 i then .error (.goPanic "reflect: slice index out of range")
    else .ok ⟨some e, d + e.size * toU64 i, ⟨true, v.flags.exported⟩⟩
  | some .strg =>
    let d := st.mem.loadWord v.value
    let len := st.mem.loadWord (v.value + 8)
    if len ≤ toU64 i then .error (.goPanic "reflect: string index out of range")
    else .ok ⟨some uint8Type, st.mem.byteAt (d + toU64 i), ⟨false, v.flags.exported⟩⟩
  | some (.array e n) =>
    let elemSize := e.size
    let size := (RType.array e n).size
    if size = 0 then .ok ⟨some e, 0, v.flags⟩
    else if elemSize > 8 then .ok ⟨some e, v.value + elemSize * toU64 i, v.flags⟩
    else if size > 8 ∨ v.flags.indirect = true then
      let addr := v.value + elemSize * toU64 i
      let value := if v.flags.indirect = false then st.mem.loadValue addr elemSize else addr
      .ok ⟨some e, value, v.flags⟩
    else
      .ok ⟨some e, maskAndShift v.value (elemSize * toU64 i) elemSize, v.flags⟩
  | _ => .error (.valueError "Index" v.kind)

/-- The `Value.Slice` operation: two-index re-slicing of slices (bounds
against capacity) and strings (bounds against length); a fresh header is
built, no element bytes are copied.  The array case of the source is an
empty fall-through into the kind panic. -/
def Value.sliceOp (st : RState) (v : Value) (i j : Int) : RState × Except RErr Value :=
  match v.typecode with
  | some (.slice e) =>
    let d := st.mem.loadWord v.value
    let cap := st.mem.loadWord (v.value + 16)
    let i' := toU64 i
    let j' := toU64 j
    if j' < i' ∨ cap < j' then (st, .error .sliceOutOfRange)
    else
      let (st1, a) := st.alloc 24
      let st2 := st1.store a
        (toBytes (d + i' * e.size) 8 ++ toBytes (j' - i') 8 ++ toBytes (cap - i') 8)
      (st2, .ok ⟨v.typecode, a, v.flags⟩)
  | some .strg =>
    let d := st.mem.loadWord v.value
    let len := st.mem.loadWord (v.value + 8)
    let i' := toU64 i
    let j' := toU64 j
    if j' < i' ∨ len < j' then (st, .error .sliceOutOfRange)
    else
      let (st1, a) := st.alloc 16
      let st2 := st1.store a (toBytes (d + i') 8 ++ toBytes (j' - i') 8)
      (st2, .ok ⟨v.typecode, a, v.flags⟩)
  | _ => (st, .error (.valueError "Slice" v.kind))

/-- The `Value.Slice3` operation: only slices are implemented; note the
upper bound `k` is checked against the live length `hdr.len`, not the
capacity. -/
def Value.slice3Op (st : RState) (v : Value) (i j k : Int) : RState × Except RErr Value :=
  match v.typecode with
  | some (.slice e) =>
    let d := st.mem.loadWord v.value
    let len := st.mem.loadWord (v.value + 8)
    let i' := toU64 i
    let j' := toU64 j
    let k' := toU64 k
    if j' < i' ∨ k' < j' ∨ len < k' then (st, .error .sliceOutOfRange)
    else
      let (st1, a) := st.alloc 24
      let st2 := st1.store a
        (toBytes (d + i' * e.size) 8 ++ toBytes (j' - i') 8 ++ toBytes (k' - i') 8)
      (st2, .ok ⟨v.typecode, a, v.flags⟩)
  | _ => (st, .error (.goPanic "unimplemented: (reflect.Value).Slice3()"))

/-- Modelled from the spec: the engine's `len` entry point. -/
def mapLen (st : RState) (mref : Nat) : Nat :=
  match st.maps.get? mref with
  | none => 0
  | some em => em.length

/-- The `Value.Len` accessor (channels are outside the model's type
grammar, so the channel branch of the source does not appear). -/
def Value.lenOp (st : RState) (v : Value) : Except RErr Nat :=
  match v.typecode with
  | some (.array _ n) => .ok n
  | some (.mapt _ _) => .ok (mapLen st (v.pointer st))
  | some (.slice _) => .ok (st.mem.loadWord (v.value + 8))
  | some .strg => .ok (st.mem.loadWord (v.value + 8))
  | _ => .error (.valueError "Len" v.kind)

/-- The `reflect.New` entry point: a fresh zeroed block behind an
exported pointer handle. -/
def newM (st : RState) (t : RType) : RState × Value :=
  let (st1, a) := st.alloc t.size
  (st1, ⟨some (pointerTo t), a, ⟨false, true⟩⟩)

/-- The `MakeSlice` entry point: unsigned conversion of the requested
length and capacity, the `len ≤ cap` and maximum-byte-size guard, then
allocation of `cap` elements and a fresh header. -/
def makeSlice (st : RState) (t : RType) (len cap : Int) : RState × Except RErr Value :=
  if t.kind ≠ .Slice then (st, .error (.goPanic "reflect.MakeSlice of non-slice type"))
  else
    let ulen := toU64 len
    let ucap := toU64 cap
    let elementSize := t.elem.size
    let maxSize := if elementSize > 1 then ((2 ^ 64 - 1) / 2) / elementSize
                   else (2 ^ 64 - 1) / 2
    if ulen > ucap ∨ ucap > maxSize then (st, .error .sliceOutOfRange)
    else
      let size := ucap * elementSize
      let (st1, data) := st.alloc size
      let (st2, a) := st1.alloc 24
      let st3 := st2.store a (toBytes data 8 ++ toBytes ulen 8 ++ toBytes ucap 8)
      (st3, .ok ⟨some t, a, ⟨false, true⟩⟩)

/-- The `MakeMapWithSize` entry point.  The source selects one of the
three key strategies here; in the model the strategy shows up as the
`EKey` constructor chosen at every engine call, so creation just registers
an empty engine store. -/
def makeMapWithSize (st : RState) (t : RType) (n : Int) : RState × Except RErr Value :=
  if t.kind ≠ .Map then (st, .error (.valueError "MakeMap" t.kind))
  else if n < 0 then (st, .error (.goPanic "reflect.MakeMapWithSize: negative size hint"))
  else
    let mref := st.maps.length
    (⟨st.mem, st.maps ++ [([] : EngineMap)]⟩, .ok ⟨some t, mref, ⟨false, true⟩⟩)

/-- The `MakeMap` entry point. -/
def makeMap (st : RState) (t : RType) : RState × Except RErr Value :=
  makeMapWithSize st t 8

/-- Modelled from the spec: engine lookup through a map reference. -/
def engineGet (st : RState) (mref : Nat) (k : EKey) : Option (List Nat) :=
  match st.maps.get? mref with
  | none => none
  | some em => lookupE em k

/-- Modelled from the spec: engine store through a map reference. -/
def engineSet (st : RState) (mref : Nat) (k : EKey) (bs : List Nat) : RState :=
  match st.maps.get? mref with
  | none => st
  | some em => ⟨st.mem, st.maps.set mref (insertE em k bs)⟩

/-- Modelled from the spec: engine delete through a map reference. -/
def engineDel (st : RState) (mref : Nat) (k : EKey) : RState :=
  match st.maps.get? mref with
  | none => st
  | some em => ⟨st.mem, st.maps.set mref (removeE em k)⟩

/-- Resolution of the `keyptr` / `elemptr` computed before each engine
call: the bytes it reads are the value's memory when the handle is
indirect or larger than a word, and the low bytes of the packed word
otherwise. -/
def handleBytes (st : RState) (x : Value) (size : Nat) : List Nat :=
  if x.flags.indirect = true ∨ x.tsize > 8 then st.mem.loadN x.value size
  else toBytes x.value size

/-- Read the Go string (its bytes) whose header sits at address `p`. -/
def readGoString (st : RState) (p : Nat) : List Nat :=
  st.mem.loadN (st.mem.loadWord p) (st.mem.loadWord (p + 8))

/-- The binary-comparability test on a key handle's own descriptor. -/
def Value.tcIsBinary (v : Value) : Bool :=
  match v.typecode with
  | some t => t.isBinary
  | none => false

/-- The `Value.MapIndex` operation: kind check, identity check of the
key's descriptor against the map's key descriptor, allocation of the
element box, then dispatch on the key handle's own kind to one of the
three engine lookup entry points; a miss yields the zero handle. -/
def Value.mapIndex (st : RState) (v key : Value) : RState × Except RErr Value :=
  match v.typecode with
  | some (.mapt kt et) =>
    if key.typecode ≠ some kt then
      (st, .error (.goPanic "reflect.Value.MapIndex: incompatible types for key"))
    else
      let (st1, elemV) := newM st et
      let mref := v.pointer st1
      if key.kind = .String then
        match engineGet st1 mref (.str (readGoString st1 key.value)) with
        | none => (st1, .ok Value.zero)
        | some bs =>
          let st2 := st1.store elemV.value (bs.take et.size)
          match elemV.elemOp st2 with
          | .ok r => (st2, .ok r)
          | .error e => (st2, .error e)
      else if key.tcIsBinary = true then
        match engineGet st1 mref (.bin (handleBytes st1 key key.tsize)) with
        | none => (st1, .ok Value.zero)
        | some bs =>
          let st2 := st1.store elemV.value (bs.take et.size)
          match elemV.elemOp st2 with
          | .ok r => (st2, .ok r)
          | .error e => (st2, .error e)
      else
        match key.interfaceOp st1 with
        | .error e => (st1, .error e)
        | .ok ef =>
          match engineGet st1 mref (.gen ef.typ ef.word) with
          | none => (st1, .ok Value.zero)
          | some bs =>
            let st2 := st1.store elemV.value (bs.take et.size)
            match elemV.elemOp st2 with
            | .ok r => (st2, .ok r)
            | .error e => (st2, .error e)
  | _ => (st, .error (.valueError "MapIndex" v.kind))

/-- The `Value.SetMapIndex` operation: kind and key-type checks, the
zero-handle-means-delete test, the element-type check, then dispatch to
the engine's delete or store entry point for the key's strategy. -/
def Value.setMapIndex (st : RState) (v key elem : Value) : RState × Except RErr Unit :=
  match v.typecode with
  | some (.mapt kt et) =>
    if key.typecode ≠ some kt then
      (st, .error (.goPanic "reflect.Value.SetMapIndex: incompatible types for key"))
    else
      let del := elem = Value.zero
      if ¬ del ∧ elem.typecode ≠ some et then
        (st, .error (.goPanic "reflect.Value.SetMapIndex: incompatible types for value"))
      else
        let mref := v.pointer st
        if key.kind = .String then
          let ks := EKey.str (readGoString st key.value)
          if del then (engineDel st mref ks, .ok ())
          else (engineSet st mref ks (handleBytes st elem elem.tsize), .ok ())
        else if key.tcIsBinary = true then
          let kb := EKey.bin (handleBytes st key key.tsize)
          if del then (engineDel st mref kb, .ok ())
          else (engineSet st mref kb (handleBytes st elem elem.tsize), .ok ())
        else
          match key.interfaceOp st with
          | .error e => (st, .error e)
          | .ok ef =>
            let kg := EKey.gen ef.typ ef.word
            if del then (engineDel st mref kg, .ok ())
            else (engineSet st mref kg (handleBytes st elem elem.tsize), .ok ())
  | _ => (st, .error (.valueError "SetMapIndex" v.kind))

/-- Modelled from the spec (§4.4): the runtime's `sliceGrow` allocates a
fresh buffer of the requested capacity and copies the live prefix
forward, returning the new buffer, the old length and the new capacity. -/
def sliceGrowM (st : RState) (buf oldLen _oldCap newCap elemSize : Nat) :
    RState × Nat × Nat × Nat :=
  let (st1, nbuf) := st.alloc (newCap * elemSize)
  let st2 := st1.store nbuf (st.mem.loadN buf (oldLen * elemSize))
  (st2, nbuf, oldLen, newCap)

/-- The `extendSlice` helper: read the old header (nil handles count as
empty), grow the backing store if the capacity is insufficient, and build
a fresh header whose length includes the `n` new slots. -/
def Value.extendSlice (st : RState) (v : Value) (n : Nat) : RState × Except RErr Value :=
  if v.kind ≠ .Slice then (st, .error (.valueError "extendSlice" v.kind))
  else
    let d := if v.value = 0 then 0 else st.mem.loadWord v.value
    let l := if v.value = 0 then 0 else st.mem.loadWord (v.value + 8)
    let c := if v.value = 0 then 0 else st.mem.loadWord (v.value + 16)
    let elemSize := match v.typecode with
      | some t => t.elem.size
      | none => 0
    let grown := if l + n > c then sliceGrowM st d l c (c + n) elemSize else (st, d, l, c)
    let (st2, a) := grown.1.alloc 24
    let st3 := st2.store a
      (toBytes grown.2.1 8 ++ toBytes (grown.2.2.1 + n) 8 ++ toBytes grown.2.2.2 8)
    (st3, .ok { v with value := a })

/-- The element-copy loop of `Append`: `v.Index(oldLen+i).Set(x)` for
each new element, aborting (state as reached) on the first failure. -/
def appendLoop (st : RState) (v : Value) (oldLen i : Nat) :
    List Value → RState × Except RErr Value
  | [] => (st, .ok v)
  | x :: rest =>
    match v.indexOp st ((oldLen + i : Nat) : Int) with
    | .error e => (st, .error e)
    | .ok tgt =>
      match tgt.setOp st x with
      | (st', .ok _) => appendLoop st' v oldLen (i + 1) rest
      | (st', .error e) => (st', .error e)

/-- The `Append` entry point: kind check, then `extendSlice`, then the
per-element copy loop. -/
def appendM (st : RState) (v : Value) (xs : List Value) : RState × Except RErr Value :=
  if v.kind ≠ .Slice then (st, .error (.valueError "Append" v.kind))
  else
    let oldLen := st.mem.loadWord (v.value + 8)
    match v.extendSlice st xs.length with
    | (st1, .error e) => (st1, .error e)
    | (st1, .ok v1) => appendLoop st1 v1 oldLen 0 xs

/-- Handles reachable through the public API: produced by a construction
entry point or by a navigation operation applied to a reachable handle. -/
inductive Reachable : Value → Prop where
  | ofValueOf (e : EFace) : Reachable (ValueOfM e)
  | ofNew (st : RState) (t : RType) : Reachable (newM st t).2
  | ofMakeSlice {st st' : RState} {t : RType} {l c : Int} {v : Value} :
      makeSlice st t l c = (st', .ok v) → Reachable v
  | ofMakeMap {st st' : RState} {t : RType} {n : Int} {v : Value} :
      makeMapWithSize st t n = (st', .ok v) → Reachable v
  | ofField {st : RState} {v : Value} {i : Nat} {v' : Value} :
      Reachable v → Value.fieldOp st v i = .ok v' → Reachable v'
  | ofElem {st : RState} {v v' : Value} :
      Reachable v → Value.elemOp st v = .ok v' → Reachable v'
  | ofIndex {st : RState} {v : Value} {i : Int} {v' : Value} :
      Reachable v → Value.indexOp st v i = .ok v' → Reachable v'
  | ofSlice {st st' : RState} {v : Value} {i j : Int} {v' : Value} :
      Reachable v → Value.sliceOp st v i j = (st', .ok v') → Reachable v'
  | ofSlice3 {st st' : RState} {v : Value} {i j k : Int} {v' : Value} :
      Reachable v → Value.slice3Op st v i j k = (st', .ok v') → Reachable v'
  | ofAddr {v v' : Value} :
      Reachable v → Value.addrOp v = .ok v' → Reachable v'
  | ofMapIndex {st st' : RState} {m k v' : Value} :
      Reachable m → Reachable k → Value.mapIndex st m k = (st', .ok v') → Reachable v'
  | ofAppend {st st' : RState} {v v' : Value} {xs : List Value} :
      Reachable v → appendM st v xs = (st', .ok v') → Reachable v'


/-! Shared facts about the byte-level memory model. -/

theorem toBytes_length (w n : Nat) : (toBytes w n).length = n := by
  induction n generalizing w with
  | zero => rfl
  | succ n ih => simp [toBytes, ih]

theorem toBytes_lt (w n : Nat) : ∀ b ∈ toBytes w n, b < 256 := by
  induction n generalizing w with
  | zero => simp [toBytes]
  | succ n ih =>
    intro b hb
    simp only [toBytes, List.mem_cons] at hb
    rcases hb with h | h
    · omega
    · exact ih _ b h

theorem Mem.writeByte_ifaces (m : Mem) (a b : Nat) : (m.writeByte a b).ifaces = m.ifaces := rfl

theorem Mem.writeByte_nextFree (m : Mem) (a b : Nat) :
    (m.writeByte a b).nextFree = m.nextFree := rfl

theorem Mem.storeBytes_ifaces (bs : List Nat) (m : Mem) (a : Nat) :
    (m.storeBytes a bs).ifaces = m.ifaces := by
  induction bs generalizing m a with
  | nil => rfl
  | cons b bs ih => simp [Mem.storeBytes, ih, Mem.writeByte]

theorem Mem.storeBytes_nextFree (bs : List Nat) (m : Mem) (a : Nat) :
    (m.storeBytes a bs).nextFree = m.nextFree := by
  induction bs generalizing m a with
  | nil => rfl
  | cons b bs ih => simp [Mem.storeBytes, ih, Mem.writeByte]

theorem Mem.storeBytes_bytes_outside (bs : List Nat) (m : Mem) (a x : Nat)
    (h : x < a ∨ a + bs.length ≤ x) : (m.storeBytes a bs).bytes x = m.bytes x := by
  induction bs generalizing m a with
  | nil => rfl
  | cons b bs ih =>
    simp only [Mem.storeBytes]
    rw [ih]
    · simp only [Mem.writeByte]
      have : x ≠ a := by simp at h; omega
      simp [this]
    · simp at h ⊢; omega

theorem Mem.byteAt_storeBytes_outside (bs : List Nat) (m : Mem) (a x : Nat)
    (h : x < a ∨ a + bs.length ≤ x) : (m.storeBytes a bs).byteAt x = m.byteAt x := by
  simp [Mem.byteAt, Mem.storeBytes_bytes_outside bs m a x h]

theorem Mem.byteAt_writeByte_self (m : Mem) (a b : Nat) :
    (m.writeByte a b).byteAt a = b % 256 := by
  simp [Mem.byteAt, Mem.writeByte]

theorem Mem.loadN_length (m : Mem) (a n : Nat) : (m.loadN a n).length = n := by
  induction n generalizing a with
  | zero => rfl
  | succ n ih => simp [Mem.loadN, ih]

theorem Mem.loadN_lt (m : Mem) (a n : Nat) : ∀ b ∈ m.loadN a n, b < 256 := by
  induction n generalizing a with
  | zero => simp [Mem.loadN]
  | succ n ih =>
    intro b hb
    simp only [Mem.loadN, List.mem_cons] at hb
    rcases hb with h | h
    · simp [h, Mem.byteAt]; omega
    · exact ih _ b h

theorem Mem.loadN_storeBytes (bs : List Nat) (m : Mem) (a : Nat)
    (h : ∀ b ∈ bs, b < 256) : (m.storeBytes a bs).loadN a bs.length = bs := by
  induction bs generalizing m a with
  | nil => rfl
  | cons b bs ih =>
    simp only [Mem.storeBytes, List.length_cons, Mem.loadN, List.cons.injEq]
    constructor
    · rw [Mem.byteAt_storeBytes_outside bs _ (a + 1) a (by omega)]
      rw [Mem.byteAt_writeByte_self]
      exact Nat.mod_eq_of_lt (h b (by simp))
    · exact ih _ _ (fun b hb => h b (by simp [hb]))

theorem Mem.loadValue_lt (m : Mem) (a n : Nat) : m.loadValue a n < 2 ^ (8 * n) := by
  induction n generalizing a with
  | zero => simp [Mem.loadValue]
  | succ n ih =>
    have hb : m.byteAt a < 256 := by simp [Mem.byteAt]; omega
    have h2 : 2 ^ (8 * (n + 1)) = 256 * 2 ^ (8 * n) := by ring
    have := ih (a + 1)
    simp only [Mem.loadValue]
    omega

theorem Mem.loadValue_succ_high (m : Mem) (a n : Nat) :
    m.loadValue a (n + 1) = m.loadValue a n + m.byteAt (a + n) * 2 ^ (8 * n) := by
  induction n generalizing a with
  | zero => simp [Mem.loadValue]
  | succ n ih =>
    have h1 : m.loadValue a (n + 1 + 1) =
        m.byteAt a + 256 * m.loadValue (a + 1) (n + 1) := rfl
    rw [h1, ih (a + 1)]
    have h2 : 2 ^ (8 * (n + 1)) = 256 * 2 ^ (8 * n) := by ring
    have h3 : a + 1 + n = a + (n + 1) := by omega
    simp only [Mem.loadValue, h2, h3]
    ring

theorem Mem.unboxLoop_eq (m : Mem) (p : Nat) (n : Nat) : ∀ acc,
    m.unboxLoop p acc n = acc * 2 ^ (8 * n) + m.loadValue p n := by
  induction n with
  | zero => intro acc; simp [Mem.unboxLoop, Mem.loadValue]
  | succ n ih =>
    intro acc
    simp only [Mem.unboxLoop]
    rw [ih, Mem.loadValue_succ_high]
    have h2 : 2 ^ (8 * (n + 1)) = 2 ^ (8 * n) * 256 := by ring
    rw [h2]
    ring

theorem Mem.loadValue_of_loadN (m : Mem) (a w : Nat) (n : Nat)
    (hn : m.loadN a n = toBytes w n) (hw : w < 2 ^ (8 * n)) :
    m.loadValue a n = w := by
  induction n generalizing a w with
  | zero =>
    simp only [pow_zero, Nat.mul_zero] at hw
    simp [Mem.loadValue]
    omega
  | succ n ih =>
    simp only [Mem.loadN, toBytes, List.cons.injEq] at hn
    have hdiv : w / 256 < 2 ^ (8 * n) := by
      have h2 : 2 ^ (8 * (n + 1)) = 256 * 2 ^ (8 * n) := by ring
      omega
    have := ih (a + 1) (w / 256) hn.2 hdiv
    simp only [Mem.loadValue, this, hn.1]
    omega

theorem Mem.storeBytes_append (m : Mem) (a : Nat) (bs cs : List Nat) :
    m.storeBytes a (bs ++ cs) = (m.storeBytes a bs).storeBytes (a + bs.length) cs := by
  induction bs generalizing m a with
  | nil => simp [Mem.storeBytes]
  | cons b bs ih =>
    have h1 : (b :: bs) ++ cs = b :: (bs ++ cs) := rfl
    rw [h1]
    simp only [Mem.storeBytes, List.length_cons]
    rw [ih]
    have h2 : a + 1 + bs.length = a + (bs.length + 1) := by omega
    rw [h2]

theorem Mem.loadValue_eq_of_byteAt (m m' : Mem) (a n : Nat)
    (h : ∀ i, i < n → m'.byteAt (a + i) = m.byteAt (a + i)) :
    m'.loadValue a n = m.loadValue a n := by
  induction n generalizing a with
  | zero => rfl
  | succ n ih =>
    have h0 : m'.byteAt a = m.byteAt a := by
      have := h 0 (by omega)
      simpa using this
    have hrest : ∀ i, i < n → m'.byteAt (a + 1 + i) = m.byteAt (a + 1 + i) := by
      intro i hi
      have := h (i + 1) (by omega)
      rwa [show a + (i + 1) = a + 1 + i by omega] at this
    simp only [Mem.loadValue]
    rw [h0, ih (a + 1) hrest]

theorem Mem.loadValue_storeBytes_disjoint (m : Mem) (bs : List Nat) (a b n : Nat)
    (h : a + n ≤ b ∨ b + bs.length ≤ a) :
    (m.storeBytes b bs).loadValue a n = m.loadValue a n := by
  apply Mem.loadValue_eq_of_byteAt
  intro i hi
  apply Mem.byteAt_storeBytes_outside
  omega

theorem Mem.loadValue_storeBytes_toBytes (m : Mem) (a w n : Nat) :
    (m.storeBytes a (toBytes w n)).loadValue a n = w % 2 ^ (8 * n) := by
  have hlen := toBytes_length w n
  have hload := Mem.loadN_storeBytes (toBytes w n) m a (toBytes_lt w n)
  rw [hlen] at hload
  have hlt : w % 2 ^ (8 * n) < 2 ^ (8 * n) := Nat.mod_lt _ (by positivity)
  apply Mem.loadValue_of_loadN _ _ _ _ _ hlt
  rw [hload]
  clear hload hlen hlt
  induction n generalizing w with
  | zero => rfl
  | succ n ih =>
    have h2 : 2 ^ (8 * (n + 1)) = 256 * 2 ^ (8 * n) := by ring
    simp only [toBytes, List.cons.injEq]
    constructor
    · rw [h2, Nat.mod_mod_of_dvd w ⟨2 ^ (8 * n), rfl⟩]
    · rw [ih (w / 256), h2, Nat.mod_mul_right_div_self]

/-- The host's inline packing of a `bits`-wide signed scalar into the
container word: the two's complement representative in `[0, 2^bits)`. -/
def packInt (bits : Nat) (x : Int) : Nat := (x % ((2 : Int) ^ bits)).toNat

theorem sext_packInt (b : Nat) (x : Int)
    (h1 : -((2 : Int) ^ b) ≤ x) (h2 : x < (2 : Int) ^ b) :
    sext (b + 1) (packInt (b + 1) x) = x := by
  have hsplit : (2 : Int) ^ (b + 1) = 2 ^ b + 2 ^ b := by ring
  have hpos : (0 : Int) < 2 ^ (b + 1) := by positivity
  have hcast1 : ((2 ^ (b + 1) : Nat) : Int) = (2 : Int) ^ (b + 1) := by push_cast; ring
  have hcast2 : ((2 ^ b : Nat) : Int) = (2 : Int) ^ b := by push_cast; ring
  have hsub : b + 1 - 1 = b := rfl
  rcases le_or_lt 0 x with hx | hx
  · have hmod : x % 2 ^ (b + 1) = x := Int.emod_eq_of_lt hx (by omega)
    unfold sext packInt
    rw [hmod, hsub]
    have hxl : x.toNat < 2 ^ (b + 1) := by omega
    rw [Nat.mod_eq_of_lt hxl]
    have hcond : x.toNat < 2 ^ b := by omega
    rw [if_pos hcond]
    omega
  · have hmod0 : (x + 2 ^ (b + 1)) % 2 ^ (b + 1) = x % 2 ^ (b + 1) := by
      simp
    have hmod : x % 2 ^ (b + 1) = x + 2 ^ (b + 1) := by
      rw [← hmod0]
      exact Int.emod_eq_of_lt (by omega) (by omega)
    unfold sext packInt
    rw [hmod, hsub]
    have hxl : (x + 2 ^ (b + 1)).toNat < 2 ^ (b + 1) := by omega
    rw [Nat.mod_eq_of_lt hxl]
    have hcond : ¬ ((x + 2 ^ (b + 1)).toNat < 2 ^ b) := by omega
    rw [if_neg hcond]
    omega

/-! Claim C3: scalar readers and kind mismatches. -/

/-- A closed background state used by concrete instances: zeroed memory,
no maps, allocation cursor at 64. -/
def stTriv : RState := ⟨⟨fun _ => 0, fun _ => ⟨none, 0⟩, 64⟩, []⟩

/-- A string-kind handle (for reader kind-mismatch instances). -/
def vStr64 : Value := ⟨some .strg, 0, ⟨false, true⟩⟩

/-- An `int64`-kind handle (for the `String` placeholder instance). -/
def vInt64of5 : Value := ⟨some (.prim .Int64 8 true), 5, ⟨false, true⟩⟩

/-- C3 (amended): each numeric scalar reader (`Bool`, `Int`, `Uint`,
`Float`, `Complex`) fails with a `ValueError` naming the reader and the
handle's actual kind exactly on kinds outside its fixed accepted set;
`String`, by deliberate exception in the source, does not fail on a
non-string kind but returns the `"<T Value>"` placeholder string. -/
theorem c3_scalar_reader_kind_mismatch (st : RState) (v : Value) :
    (v.kind ≠ .Bool → v.boolR st = .error (.valueError "Bool" v.kind)) ∧
    (v.kind ∉ ([.Int, .Int8, .Int16, .Int32, .Int64] : List Kind) →
      v.intR st = .error (.valueError "Int" v.kind)) ∧
    (v.kind ∉ ([.Uint, .Uint8, .Uint16, .Uint32, .Uint64, .Uintptr] : List Kind) →
      v.uintR st = .error (.valueError "Uint" v.kind)) ∧
    (v.kind ∉ ([.Float32, .Float64] : List Kind) →
      v.floatR st = .error (.valueError "Float" v.kind)) ∧
    (v.kind ∉ ([.Complex64, .Complex128] : List Kind) →
      v.complexR st = .error (.valueError "Complex" v.kind)) ∧
    (v.kind ≠ .String → ∃ s, v.stringR st = .ok (.lit s)) := by
  refine ⟨?_, ?_, ?_, ?_, ?_, ?_⟩ <;> intro h <;>
    cases hk : v.kind <;>
      simp_all [Value.boolR, Value.intR, Value.uintR, Value.floatR, Value.complexR,
        Value.stringR]

/-- Witness for C3's amended theorem at concrete handles. -/
theorem c3_scalar_reader_kind_mismatch_witness :
    Value.boolR stTriv vStr64 = .error (.valueError "Bool" .String) ∧
    Value.intR stTriv vStr64 = .error (.valueError "Int" .String) ∧
    Value.uintR stTriv vStr64 = .error (.valueError "Uint" .String) ∧
    Value.floatR stTriv vStr64 = .error (.valueError "Float" .String) ∧
    Value.complexR stTriv vStr64 = .error (.valueError "Complex" .String) ∧
    ∃ s, Value.stringR stTriv vInt64of5 = .ok (.lit s) := by
  have h1 := c3_scalar_reader_kind_mismatch stTriv vStr64
  have h2 := c3_scalar_reader_kind_mismatch stTriv vInt64of5
  exact ⟨h1.1 (by decide), h1.2.1 (by decide), h1.2.2.1 (by decide),
    h1.2.2.2.1 (by decide), h1.2.2.2.2.1 (by decide), h2.2.2.2.2.2 (by decide)⟩

/-- C3 counterexample: `String` invoked on an `int64`-kind handle does
not fail with a kind-mismatch error as the claim states; the call
succeeds and returns the placeholder string. -/
theorem c3_counterexample :
    vInt64of5.kind ≠ Kind.String ∧
    Value.stringR stTriv vInt64of5 = .ok (.lit "<int64 Value>") := by
  constructor
  · decide
  · rfl

/-! Claim C5: the accessible flag narrows monotonically. -/

/-- C5: a struct field declared non-exported yields a handle with the
accessible (exported) flag cleared regardless of the parent's flag; no
navigation operation (`Field`, `Index`, `Elem`, `Slice`, `Slice3`,
`Addr`) ever produces an accessible handle from a non-accessible one; and
reading the payload of a non-accessible handle fails with the
NotAccessible panic. -/
theorem c5_accessibility_monotone :
    (∀ (st : RState) (v : Value) (i : Nat) (s : Nat) (fs : FieldList)
        (p : String) (t : RType) (o : Nat) (v' : Value),
        v.typecode = some (.strukt s fs) → fs.get i = some (p, t, o) → p ≠ "" →
        v.fieldOp st i = .ok v' → v'.flags.exported = false) ∧
    (∀ (st : RState) (v : Value) (i : Nat) (v' : Value),
        v.flags.exported = false → v.fieldOp st i = .ok v' → v'.flags.exported = false) ∧
    (∀ (st : RState) (v : Value) (i : Int) (v' : Value),
        v.flags.exported = false → v.indexOp st i = .ok v' → v'.flags.exported = false) ∧
    (∀ (st : RState) (v v' : Value),
        v.flags.exported = false → v.elemOp st = .ok v' → v'.flags.exported = false) ∧
    (∀ (st st' : RState) (v : Value) (i j : Int) (v' : Value),
        v.flags.exported = false → v.sliceOp st i j = (st', .ok v') →
        v'.flags.exported = false) ∧
    (∀ (st st' : RState) (v : Value) (i j k : Int) (v' : Value),
        v.flags.exported = false → v.slice3Op st i j k = (st', .ok v') →
        v'.flags.exported = false) ∧
    (∀ (v v' : Value),
        v.flags.exported = false → v.addrOp = .ok v' → v'.flags.exported = false) ∧
    (∀ (st : RState) (v : Value),
        v.flags.exported = false →
        v.interfaceOp st = .error (.goPanic "(reflect.Value).Interface: unexported")) := by
  refine ⟨?_, ?_, ?_, ?_, ?_, ?_, ?_, ?_⟩
  · intro st v i s fs p t o v' hv hf hp hok
    simp only [Value.fieldOp, hv, hf] at hok
    rw [if_pos hp] at hok
    split at hok <;> [skip; split at hok] <;> [skip; skip; split at hok] <;>
      simp only [Except.ok.injEq] at hok <;> subst hok <;> rfl
  · intro st v i v' hexp hok
    cases hv : v.typecode with
    | none => simp [Value.fieldOp, hv] at hok
    | some t =>
      cases t
      case strukt s fs =>
        cases hf : fs.get i with
        | none => simp [Value.fieldOp, hv, hf] at hok
        | some f =>
          obtain ⟨p, ft, o⟩ := f
          simp only [Value.fieldOp, hv, hf] at hok
          split at hok <;> [skip; split at hok] <;> [skip; skip; split at hok] <;>
            simp only [Except.ok.injEq] at hok <;> subst hok <;>
              by_cases hp : p = "" <;> simp_all
      all_goals simp [Value.fieldOp, hv] at hok
  · intro st v i v' hexp hok
    cases hv : v.typecode with
    | none => simp [Value.indexOp, hv] at hok
    | some t =>
      cases t
      case slice e =>
        simp only [Value.indexOp, hv] at hok
        split at hok
        · exact absurd hok (by simp)
        · simp only [Except.ok.injEq] at hok
          subst hok
          simp_all
      case strg =>
        simp only [Value.indexOp, hv] at hok
        split at hok
        · exact absurd hok (by simp)
        · simp only [Except.ok.injEq] at hok
          subst hok
          simp_all
      case array e n =>
        simp only [Value.indexOp, hv] at hok
        split at hok <;> [skip; split at hok] <;> [skip; skip; split at hok] <;>
          simp only [Except.ok.injEq] at hok <;> subst hok <;> simp_all
      all_goals simp [Value.indexOp, hv] at hok
  · intro st v v' hexp hok
    cases hv : v.typecode with
    | none => simp [Value.elemOp, hv] at hok
    | some t =>
      cases t
      case ptr e =>
        simp only [Value.elemOp, hv] at hok
        split at hok <;> simp only [Except.ok.injEq] at hok <;> subst hok <;>
          simp_all [Value.zero]
      case iface =>
        simp only [Value.elemOp, hv] at hok
        simp only [Except.ok.injEq] at hok
        subst hok
        simp_all
      all_goals simp [Value.elemOp, hv] at hok
  · intro st st' v i j v' hexp hok
    cases hv : v.typecode with
    | none =>
      simp only [Value.sliceOp, hv] at hok
      injection hok with ha hb
      simp at hb
    | some t =>
      cases t
      case slice e =>
        simp only [Value.sliceOp, hv] at hok
        split at hok
        · injection hok with ha hb
          simp at hb
        · injection hok with ha hb
          simp only [Except.ok.injEq] at hb
          subst hb
          simp_all
      case strg =>
        simp only [Value.sliceOp, hv] at hok
        split at hok
        · injection hok with ha hb
          simp at hb
        · injection hok with ha hb
          simp only [Except.ok.injEq] at hb
          subst hb
          simp_all
      all_goals
        simp only [Value.sliceOp, hv] at hok
        injection hok with ha hb
        simp at hb
  · intro st st' v i j k v' hexp hok
    cases hv : v.typecode with
    | none =>
      simp only [Value.slice3Op, hv] at hok
      injection hok with ha hb
      simp at hb
    | some t =>
      cases t
      case slice e =>
        simp only [Value.slice3Op, hv] at hok
        split at hok
        · injection hok with ha hb
          simp at hb
        · injection hok with ha hb
          simp only [Except.ok.injEq] at hb
          subst hb
          simp_all
      all_goals
        simp only [Value.slice3Op, hv] at hok
        injection hok with ha hb
        simp at hb
  · intro v v' hexp hok
    simp only [Value.addrOp] at hok
    split at hok
    · exact absurd hok (by simp)
    · simp only [Except.ok.injEq] at hok
      subst hok
      simp_all
  · intro st v hexp
    simp [Value.interfaceOp, hexp]

/-- A struct descriptor with one non-exported `int64` field at offset 0. -/
def structNX : RType := .strukt 8 (.cons "main" (.prim .Int64 8 true) 0 .nil)

/-- An accessible, addressable handle to a `structNX` value at 100. -/
def vStructNX : Value := ⟨some structNX, 100, ⟨true, true⟩⟩

/-- The same struct handle with the accessible flag already clear. -/
def vStructNX2 : Value := ⟨some structNX, 100, ⟨true, false⟩⟩

/-- The handle `Field(0)` produces for the non-exported field. -/
def vFieldNX : Value := ⟨some (.prim .Int64 8 true), 100, ⟨true, false⟩⟩

/-- A non-accessible pointer-to-string handle. -/
def vPtrNX : Value := ⟨some (.ptr .strg), 100, ⟨false, false⟩⟩

/-- A state holding a string header (data 32, length 2) at address 0. -/
def stStr : RState := ⟨⟨fun a => if a = 0 then 32 else if a = 8 then 2 else 0,
  fun _ => ⟨none, 0⟩, 64⟩, []⟩

/-- A non-accessible string handle over `stStr`. -/
def vStrNX : Value := ⟨some .strg, 0, ⟨false, false⟩⟩

/-- A state holding a slice header (data 32, length 2, capacity 4) at 8. -/
def stSlice : RState := ⟨⟨fun a =>
  if a = 8 then 32 else if a = 16 then 2 else if a = 24 then 4 else 0,
  fun _ => ⟨none, 0⟩, 64⟩, []⟩

/-- A non-accessible `[]int64` handle over `stSlice`. -/
def vSliceNX : Value := ⟨some (.slice (.prim .Int64 8 true)), 8, ⟨false, false⟩⟩

/-- Witness for C5's theorem: each conjunct applied at a concrete
navigation step whose hypotheses hold. -/
theorem c5_accessibility_monotone_witness :
    vFieldNX.flags.exported = false ∧
    (⟨some uint8Type, 0, ⟨false, false⟩⟩ : Value).flags.exported = false ∧
    (⟨some .strg, 100, ⟨true, false⟩⟩ : Value).flags.exported = false ∧
    (⟨some (.ptr (.prim .Int64 8 true)), 100, ⟨false, false⟩⟩ : Value).flags.exported = false ∧
    Value.interfaceOp stTriv vFieldNX =
      .error (.goPanic "(reflect.Value).Interface: unexported") := by
  have h := c5_accessibility_monotone
  refine ⟨?_, ?_, ?_, ?_, ?_⟩
  · exact h.1 stTriv vStructNX 0 8 (.cons "main" (.prim .Int64 8 true) 0 .nil)
      "main" (.prim .Int64 8 true) 0 vFieldNX rfl rfl (by decide) (by decide)
  · exact h.2.2.1 stStr vStrNX 0 ⟨some uint8Type, 0, ⟨false, false⟩⟩ rfl (by decide)
  · exact h.2.2.2.1 stTriv vPtrNX ⟨some .strg, 100, ⟨true, false⟩⟩ rfl (by decide)
  · exact h.2.2.2.2.2.2.1 vFieldNX ⟨some (.ptr (.prim .Int64 8 true)), 100, ⟨false, false⟩⟩
      rfl (by decide)
  · exact h.2.2.2.2.2.2.2 stTriv vFieldNX rfl

/-! Claim C7: string indexing is read-only. -/

/-- C7: for a string handle, `Index(i)` with `i` in range yields a
byte-kind handle whose accessible flag equals the parent's and whose
indirect flag is clear, so it is never settable and every write through it
fails with the not-addressable panic; `Index(i)` with `i` at or past the
length (in particular `i = Len`) fails with the index-out-of-range panic;
and `Index` on a slice always yields an indirect handle. -/
theorem c7_string_index_read_only (st : RState) (v : Value) (i : Int)
    (hv : v.typecode = some .strg) :
    (toU64 i < st.mem.loadWord (v.value + 8) →
      v.indexOp st i = .ok ⟨some uint8Type,
        st.mem.byteAt (st.mem.loadWord v.value + toU64 i), ⟨false, v.flags.exported⟩⟩) ∧
    (∀ b : Nat,
      Value.canSet ⟨some uint8Type, b, ⟨false, v.flags.exported⟩⟩ = false ∧
      (∀ (st2 : RState) (x : Nat),
        Value.setUint st2 ⟨some uint8Type, b, ⟨false, v.flags.exported⟩⟩ x
          = (st2, .error notAddrErr)) ∧
      (∀ (st2 : RState) (x : Int),
        Value.setInt st2 ⟨some uint8Type, b, ⟨false, v.flags.exported⟩⟩ x
          = (st2, .error notAddrErr)) ∧
      (∀ (st2 : RState) (x : Value),
        Value.setOp st2 ⟨some uint8Type, b, ⟨false, v.flags.exported⟩⟩ x
          = (st2, .error notAddrErr))) ∧
    (st.mem.loadWord (v.value + 8) ≤ toU64 i →
      v.indexOp st i = .error (.goPanic "reflect: string index out of range")) ∧
    (∀ (sv : Value) (e : RType) (j : Int) (v' : Value),
      sv.typecode = some (.slice e) → sv.indexOp st j = .ok v' →
      v'.flags.indirect = true) := by
  refine ⟨?_, ?_, ?_, ?_⟩
  · intro hlt
    simp only [Value.indexOp, hv]
    rw [if_neg (by omega)]
  · intro b
    refine ⟨rfl, fun st2 x => rfl, fun st2 x => rfl, fun st2 x => rfl⟩
  · intro hge
    simp only [Value.indexOp, hv]
    rw [if_pos (by omega)]
  · intro sv e j v' hsv hok
    simp only [Value.indexOp, hsv] at hok
    split at hok
    · exact absurd hok (by simp)
    · simp only [Except.ok.injEq] at hok
      subst hok
      rfl

/-- Witness for C7 over the concrete string "ab"-shaped header in
`stStr`: index 0 succeeds read-only, index 2 = Len fails. -/
theorem c7_string_index_read_only_witness :
    Value.indexOp stStr vStrNX 0 = .ok ⟨some uint8Type, 0, ⟨false, false⟩⟩ ∧
    Value.canSet ⟨some uint8Type, 0, ⟨false, false⟩⟩ = false ∧
    (Value.setUint stTriv ⟨some uint8Type, 0, ⟨false, false⟩⟩ 7
      = (stTriv, .error notAddrErr)) ∧
    Value.indexOp stStr vStrNX 2 = .error (.goPanic "reflect: string index out of range") ∧
    (⟨some (.prim .Int64 8 true), 32, ⟨true, false⟩⟩ : Value).flags.indirect = true := by
  have h := c7_string_index_read_only stStr vStrNX 0 rfl
  have h2 := c7_string_index_read_only stStr vStrNX 2 rfl
  refine ⟨?_, (h.2.1 0).1, (h.2.1 0).2.1 stTriv 7, h2.2.2.1 (by decide), ?_⟩
  · have := h.1 (by decide)
    simpa using this
  · have h3 := c7_string_index_read_only stSlice vStrNX 0 rfl
    exact (h3.2.2.2 vSliceNX (.prim .Int64 8 true) 0
      ⟨some (.prim .Int64 8 true), 32, ⟨true, false⟩⟩ rfl (by decide))

/-! Claim C4: scalar writers check addressability, then kind. -/

/-- Accepted kinds of `SetInt`. -/
def intKinds : List Kind := [.Int, .Int8, .Int16, .Int32, .Int64]

/-- Accepted kinds of `SetUint`. -/
def uintKinds : List Kind := [.Uint, .Uint8, .Uint16, .Uint32, .Uint64, .Uintptr]

/-- Accepted kinds of `SetFloat`. -/
def floatKinds : List Kind := [.Float32, .Float64]

/-- Accepted kinds of `SetComplex`. -/
def complexKinds : List Kind := [.Complex64, .Complex128]

/-- C4 (amended): every scalar writer fails with NotAddressable exactly
when the handle's indirect bit is clear; otherwise it fails with a
KindMismatch naming the writer exactly when the kind is outside its
accepted set; otherwise it stores bytes through the memory reference.  No
writer reads the accessible flag.  The claim's final conjunct is dropped:
an indirect handle need not have been obtained through an
accessibility-preserving path — a reachable handle with `Indirect` set
and `Accessible` clear exists. -/
theorem c4_scalar_writers (narrow : Nat → Nat) (st : RState) (v : Value) :
    (v.flags.indirect = false →
      (∀ x, v.setBool st x = (st, .error notAddrErr)) ∧
      (∀ x, v.setInt st x = (st, .error notAddrErr)) ∧
      (∀ x, v.setUint st x = (st, .error notAddrErr)) ∧
      (∀ x, Value.setFloat narrow st v x = (st, .error notAddrErr)) ∧
      (∀ x, Value.setComplex narrow st v x = (st, .error notAddrErr)) ∧
      (∀ p q, v.setString st p q = (st, .error notAddrErr))) ∧
    (v.flags.indirect = true →
      (∀ x, v.kind ≠ .Bool →
        v.setBool st x = (st, .error (.valueError "SetBool" v.kind))) ∧
      (∀ x, v.kind = .Bool →
        ∃ bs, bs ≠ [] ∧ v.setBool st x = (st.store v.value bs, .ok ())) ∧
      (∀ x, v.kind ∉ intKinds →
        v.setInt st x = (st, .error (.valueError "SetInt" v.kind))) ∧
      (∀ x, v.kind ∈ intKinds →
        ∃ bs, bs ≠ [] ∧ v.setInt st x = (st.store v.value bs, .ok ())) ∧
      (∀ x, v.kind ∉ uintKinds →
        v.setUint st x = (st, .error (.valueError "SetUint" v.kind))) ∧
      (∀ x, v.kind ∈ uintKinds →
        ∃ bs, bs ≠ [] ∧ v.setUint st x = (st.store v.value bs, .ok ())) ∧
      (∀ x, v.kind ∉ floatKinds →
        Value.setFloat narrow st v x = (st, .error (.valueError "SetFloat" v.kind))) ∧
      (∀ x, v.kind ∈ floatKinds →
        ∃ bs, bs ≠ [] ∧ Value.setFloat narrow st v x = (st.store v.value bs, .ok ())) ∧
      (∀ x, v.kind ∉ complexKinds →
        Value.setComplex narrow st v x = (st, .error (.valueError "SetComplex" v.kind))) ∧
      (∀ x, v.kind ∈ complexKinds →
        ∃ bs, bs ≠ [] ∧ Value.setComplex narrow st v x = (st.store v.value bs, .ok ())) ∧
      (∀ p q, v.kind ≠ .String →
        v.setString st p q = (st, .error (.valueError "SetString" v.kind))) ∧
      (∀ p q, v.kind = .String →
        ∃ bs, bs ≠ [] ∧ v.setString st p q = (st.store v.value bs, .ok ()))) ∧
    (∀ e : Bool,
      (∀ x, Value.setBool st ⟨v.typecode, v.value, ⟨v.flags.indirect, e⟩⟩ x
        = v.setBool st x) ∧
      (∀ x, Value.setInt st ⟨v.typecode, v.value, ⟨v.flags.indirect, e⟩⟩ x
        = v.setInt st x) ∧
      (∀ x, Value.setUint st ⟨v.typecode, v.value, ⟨v.flags.indirect, e⟩⟩ x
        = v.setUint st x) ∧
      (∀ x, Value.setFloat narrow st ⟨v.typecode, v.value, ⟨v.flags.indirect, e⟩⟩ x
        = Value.setFloat narrow st v x) ∧
      (∀ x, Value.setComplex narrow st ⟨v.typecode, v.value, ⟨v.flags.indirect, e⟩⟩ x
        = Value.setComplex narrow st v x) ∧
      (∀ p q, Value.setString st ⟨v.typecode, v.value, ⟨v.flags.indirect, e⟩⟩ p q
        = v.setString st p q)) ∧
    (∃ w : Value, Reachable w ∧ w.flags.indirect = true ∧ w.flags.exported = false) := by
  refine ⟨?_, ?_, ?_, ?_⟩
  · intro hind
    refine ⟨fun x => ?_, fun x => ?_, fun x => ?_, fun x => ?_, fun x => ?_, fun p q => ?_⟩ <;>
      simp [Value.setBool, Value.setInt, Value.setUint, Value.setFloat, Value.setComplex,
        Value.setString, hind]
  · intro hind
    refine ⟨fun x hk => ?_, fun x hk => ?_, fun x hk => ?_, fun x hk => ?_, fun x hk => ?_,
      fun x hk => ?_, fun x hk => ?_, fun x hk => ?_, fun x hk => ?_, fun x hk => ?_,
      fun p q hk => ?_, fun p q hk => ?_⟩ <;>
      simp only [intKinds, uintKinds, floatKinds, complexKinds, List.mem_cons,
        List.not_mem_nil, or_false] at hk <;>
      cases hkk : v.kind <;>
        simp_all [Value.setBool, Value.setInt, Value.setUint, Value.setFloat,
          Value.setComplex, Value.setString] <;>
        exact ⟨_, by simp [toBytes], rfl⟩
  · intro e
    refine ⟨fun x => ?_, fun x => ?_, fun x => ?_, fun x => ?_, fun x => ?_, fun p q => ?_⟩ <;>
      simp [Value.setBool, Value.setInt, Value.setUint, Value.setFloat, Value.setComplex,
        Value.setString, Value.kind]
  · refine ⟨vFieldNX, ?_, rfl, rfl⟩
    have h0 : Reachable (ValueOfM ⟨some (.ptr structNX), 100⟩) :=
      Reachable.ofValueOf ⟨some (.ptr structNX), 100⟩
    have h1 : Value.elemOp stTriv (ValueOfM ⟨some (.ptr structNX), 100⟩) = .ok vStructNX := by
      decide
    have h2 : Value.fieldOp stTriv vStructNX 0 = .ok vFieldNX := by decide
    exact Reachable.ofField (Reachable.ofElem h0 h1) h2

/-- Witness for C4's amended theorem at concrete handles: a packed
handle is rejected as not addressable, an indirect `int64` handle rejects
`SetBool` but accepts `SetInt` with a store through its reference. -/
theorem c4_scalar_writers_witness :
    Value.setInt stTriv vInt64of5 7 = (stTriv, .error notAddrErr) ∧
    Value.setBool stTriv vFieldNX true = (stTriv, .error (.valueError "SetBool" .Int64)) ∧
    (∃ bs, bs ≠ [] ∧
      Value.setInt stTriv vFieldNX 7 = (stTriv.store vFieldNX.value bs, .ok ())) ∧
    (∃ w : Value, Reachable w ∧ w.flags.indirect = true ∧ w.flags.exported = false) := by
  have h1 := c4_scalar_writers (fun x => x) stTriv vInt64of5
  have h2 := c4_scalar_writers (fun x => x) stTriv vFieldNX
  exact ⟨(h1.1 rfl).2.1 7, (h2.2.1 rfl).1 true (by decide),
    (h2.2.1 rfl).2.2.2.1 7 (by decide), h2.2.2.2⟩

/-- C4 counterexample: the claim's final conjunct is false — `Elem`
followed by `Field` on a non-exported field yields a reachable handle
with `Indirect` set whose accessible flag is clear, i.e. addressability
does not imply an accessibility-preserving path. -/
theorem c4_counterexample :
    ¬ (∀ w : Value, Reachable w → w.flags.indirect = true → w.flags.exported = true) := by
  intro hall
  have h0 : Reachable (ValueOfM ⟨some (.ptr structNX), 100⟩) :=
    Reachable.ofValueOf ⟨some (.ptr structNX), 100⟩
  have h1 : Value.elemOp stTriv (ValueOfM ⟨some (.ptr structNX), 100⟩) = .ok vStructNX := by
    decide
  have h2 : Value.fieldOp stTriv vStructNX 0 = .ok vFieldNX := by decide
  have hr : Reachable vFieldNX := Reachable.ofField (Reachable.ofElem h0 h1) h2
  exact absurd (hall vFieldNX hr rfl) (by decide)

/-! Claim C1: scalar round-trip through decompose / compose. -/

/-- The scalar kinds of the claim. -/
def kindIsScalar : Kind → Bool
  | .Bool => true
  | .Int | .Int8 | .Int16 | .Int32 | .Int64 => true
  | .Uint | .Uint8 | .Uint16 | .Uint32 | .Uint64 | .Uintptr => true
  | .Float32 | .Float64 | .Complex64 | .Complex128 => true
  | .String => true
  | _ => false

/-- C1: composing a scalar container into a handle via `ValueOf` and
reading it back yields the original.  Conjuncts: (1) `Interface` on the
freshly decomposed handle recomposes the identical container, for every
scalar kind; (2) an indirect handle over a word-or-smaller scalar is
first unboxed byte-by-byte, and the unboxing reconstructs the packed
word exactly; (3) the matching scalar readers recover the value: `Bool`,
the signed readers on every in-range two's complement value of each
width, and the unsigned readers on every in-range value. -/
theorem c1_scalar_roundtrip (st : RState) :
    (∀ (t : RType) (w : Nat), kindIsScalar t.kind = true →
      Value.interfaceOp st (ValueOfM ⟨some t, w⟩) = .ok ⟨some t, w⟩) ∧
    (∀ (t : RType) (w a : Nat) (e : Bool), kindIsScalar t.kind = true → t.size ≤ 8 →
      w < 2 ^ (8 * t.size) → st.mem.loadN a t.size = toBytes w t.size →
      valueInterfaceUnsafe st ⟨some t, a, ⟨true, e⟩⟩ = ⟨some t, w⟩) ∧
    (∀ b : Bool,
      Value.boolR st (ValueOfM ⟨some (.prim .Bool 1 true), if b then 1 else 0⟩) = .ok b) ∧
    (∀ x : Int, -(2 ^ 7) ≤ x → x < 2 ^ 7 →
      Value.intR st (ValueOfM ⟨some (.prim .Int8 1 true), packInt 8 x⟩) = .ok x) ∧
    (∀ x : Int, -(2 ^ 15) ≤ x → x < 2 ^ 15 →
      Value.intR st (ValueOfM ⟨some (.prim .Int16 2 true), packInt 16 x⟩) = .ok x) ∧
    (∀ x : Int, -(2 ^ 31) ≤ x → x < 2 ^ 31 →
      Value.intR st (ValueOfM ⟨some (.prim .Int32 4 true), packInt 32 x⟩) = .ok x) ∧
    (∀ x : Int, -(2 ^ 63) ≤ x → x < 2 ^ 63 →
      Value.intR st (ValueOfM ⟨some (.prim .Int 8 true), packInt 64 x⟩) = .ok x) ∧
    (∀ x : Int, -(2 ^ 63) ≤ x → x < 2 ^ 63 →
      Value.intR st (ValueOfM ⟨some (.prim .Int64 8 true), packInt 64 x⟩) = .ok x) ∧
    (∀ w : Nat, w < 2 ^ 8 →
      Value.uintR st (ValueOfM ⟨some (.prim .Uint8 1 true), w⟩) = .ok w) ∧
    (∀ w : Nat, w < 2 ^ 64 →
      Value.uintR st (ValueOfM ⟨some (.prim .Uint64 8 true), w⟩) = .ok w) := by
  refine ⟨?_, ?_, ?_, ?_, ?_, ?_, ?_, ?_, ?_, ?_⟩
  · intro t w hsc
    have hki : RType.kind t ≠ .Interface := by
      revert hsc
      cases t.kind <;> decide
    simp [Value.interfaceOp, ValueOfM, valueInterfaceUnsafe, Value.kind, hki]
  · intro t w a e hsc hsz hw hload
    have hki : RType.kind t ≠ .Interface := by
      revert hsc
      cases t.kind <;> decide
    simp only [valueInterfaceUnsafe, Value.kind, Value.tsize]
    rw [if_neg hki, if_pos (by exact ⟨by simp, hsz⟩)]
    have hu := Mem.unboxLoop_eq st.mem a t.size 0
    rw [hu, Mem.loadValue_of_loadN st.mem a w t.size hload hw]
    simp
  · intro b
    cases b <;> rfl
  · intro x h1 h2
    simp only [Value.intR, ValueOfM, Value.kind, RType.kind]
    rw [if_neg (by decide)]
    exact congrArg Except.ok (sext_packInt 7 x h1 h2)
  · intro x h1 h2
    simp only [Value.intR, ValueOfM, Value.kind, RType.kind]
    rw [if_neg (by decide)]
    exact congrArg Except.ok (sext_packInt 15 x h1 h2)
  · intro x h1 h2
    simp only [Value.intR, ValueOfM, Value.kind, RType.kind]
    rw [if_neg (by decide)]
    exact congrArg Except.ok (sext_packInt 31 x h1 h2)
  · intro x h1 h2
    simp only [Value.intR, ValueOfM, Value.kind, RType.kind]
    rw [if_neg (by decide)]
    exact congrArg Except.ok (sext_packInt 63 x h1 h2)
  · intro x h1 h2
    simp only [Value.intR, ValueOfM, Value.kind, RType.kind]
    rw [if_neg (by decide)]
    exact congrArg Except.ok (sext_packInt 63 x h1 h2)
  · intro w hw
    rfl
  · intro w hw
    rfl

/-- Witness for C1 at concrete scalars: a string container word, an
unboxed byte read back from `stStr`, `true`, `-5` as `int8`, and `200`
as `uint8`. -/
theorem c1_scalar_roundtrip_witness :
    Value.interfaceOp stTriv (ValueOfM ⟨some .strg, 42⟩) = .ok ⟨some .strg, 42⟩ ∧
    valueInterfaceUnsafe stStr ⟨some (.prim .Uint8 1 true), 0, ⟨true, true⟩⟩
      = ⟨some (.prim .Uint8 1 true), 32⟩ ∧
    Value.boolR stTriv (ValueOfM ⟨some (.prim .Bool 1 true), if true then 1 else 0⟩)
      = .ok true ∧
    Value.intR stTriv (ValueOfM ⟨some (.prim .Int8 1 true), packInt 8 (-5)⟩) = .ok (-5) ∧
    Value.uintR stTriv (ValueOfM ⟨some (.prim .Uint8 1 true), 200⟩) = .ok 200 := by
  have h1 := c1_scalar_roundtrip stTriv
  have h2 := c1_scalar_roundtrip stStr
  exact ⟨h1.1 .strg 42 (by decide),
    h2.2.1 (.prim .Uint8 1 true) 32 0 true (by decide) (by decide) (by decide) (by decide),
    h1.2.2.1 true,
    h1.2.2.2.1 (-5) (by decide) (by decide),
    h1.2.2.2.2.2.2.2.2.1 200 (by decide)⟩

/-! Claim C6: re-slicing bounds and header construction. -/

theorem toU64_lt (x : Int) : toU64 x < 2 ^ 64 := by
  unfold toU64
  have h : (2 : Int) ^ 64 = 18446744073709551616 := by norm_num
  have h2 : (2 : Nat) ^ 64 = 18446744073709551616 := by norm_num
  simp only [h, h2]
  omega

theorem toU64_of_neg (x : Int) (h1 : -(2 ^ 63) ≤ x) (h2 : x < 0) : 2 ^ 63 ≤ toU64 x := by
  unfold toU64
  have h : (2 : Int) ^ 64 = 18446744073709551616 := by norm_num
  have h2n : (2 : Nat) ^ 63 = 9223372036854775808 := by norm_num
  have h3 : (2 : Int) ^ 63 = 9223372036854775808 := by norm_num
  simp only [h, h2n]
  simp only [h3] at h1
  omega

theorem toU64_of_nonneg (x : Int) (h1 : 0 ≤ x) (h2 : x < 2 ^ 63) : toU64 x < 2 ^ 63 := by
  unfold toU64
  have h : (2 : Int) ^ 64 = 18446744073709551616 := by norm_num
  have h2n : (2 : Nat) ^ 63 = 9223372036854775808 := by norm_num
  have h3 : (2 : Int) ^ 63 = 9223372036854775808 := by norm_num
  simp only [h, h2n]
  simp only [h3] at h2
  omega

theorem RState.alloc_bytes_below (st : RState) (n x : Nat) (h : x < st.mem.nextFree) :
    (st.alloc n).1.mem.bytes x = st.mem.bytes x := by
  simp only [RState.alloc]
  rw [if_neg (by omega)]

/-- Reading back a freshly written three-word header, and the bytes the
write leaves untouched. -/
theorem Mem.store3_spec (m : Mem) (a w1 w2 w3 : Nat) :
    (m.storeBytes a (toBytes w1 8 ++ toBytes w2 8 ++ toBytes w3 8)).loadWord a
        = w1 % 2 ^ 64 ∧
    (m.storeBytes a (toBytes w1 8 ++ toBytes w2 8 ++ toBytes w3 8)).loadWord (a + 8)
        = w2 % 2 ^ 64 ∧
    (m.storeBytes a (toBytes w1 8 ++ toBytes w2 8 ++ toBytes w3 8)).loadWord (a + 16)
        = w3 % 2 ^ 64 ∧
    (∀ x, x < a ∨ a + 24 ≤ x →
      (m.storeBytes a (toBytes w1 8 ++ toBytes w2 8 ++ toBytes w3 8)).bytes x
        = m.bytes x) := by
  have hst : m.storeBytes a (toBytes w1 8 ++ toBytes w2 8 ++ toBytes w3 8)
      = ((m.storeBytes a (toBytes w1 8)).storeBytes (a + 8)
          (toBytes w2 8)).storeBytes (a + 16) (toBytes w3 8) := by
    rw [List.append_assoc, Mem.storeBytes_append, toBytes_length, Mem.storeBytes_append,
      toBytes_length]
  refine ⟨?_, ?_, ?_, ?_⟩
  · rw [hst]
    simp only [Mem.loadWord]
    rw [Mem.loadValue_storeBytes_disjoint _ (toBytes w3 8) a (a + 16) 8 (by omega)]
    rw [Mem.loadValue_storeBytes_disjoint _ (toBytes w2 8) a (a + 8) 8 (by omega)]
    have := Mem.loadValue_storeBytes_toBytes m a w1 8
    simpa using this
  · rw [hst]
    simp only [Mem.loadWord]
    rw [Mem.loadValue_storeBytes_disjoint _ (toBytes w3 8) (a + 8) (a + 16) 8 (by omega)]
    have := Mem.loadValue_storeBytes_toBytes (m.storeBytes a (toBytes w1 8)) (a + 8) w2 8
    simpa using this
  · rw [hst]
    simp only [Mem.loadWord]
    have := Mem.loadValue_storeBytes_toBytes
      ((m.storeBytes a (toBytes w1 8)).storeBytes (a + 8) (toBytes w2 8)) (a + 16) w3 8
    simpa using this
  · intro x hx
    rw [hst]
    rw [Mem.storeBytes_bytes_outside (toBytes w3 8) _ (a + 16) x
      (by rw [toBytes_length]; omega)]
    rw [Mem.storeBytes_bytes_outside (toBytes w2 8) _ (a + 8) x
      (by rw [toBytes_length]; omega)]
    rw [Mem.storeBytes_bytes_outside (toBytes w1 8) _ a x
      (by rw [toBytes_length]; omega)]

/-- C6 (amended): for every slice handle, `Slice(i,j)` fails with the
slice-bounds error exactly when (after the unsigned conversion of the
arguments) `j < i` or the capacity is below `j`; `Slice3(i,j,k)` fails
exactly when `j < i`, `k < j`, or the live length — not the capacity —
is below `k`.  On success a fresh header is constructed (length `j-i`,
capacity `cap-i` resp. `k-i`, base offset `i`·element-size) and no byte
below the allocation cursor, in particular no element data, is copied or
modified. -/
theorem c6_slice_bounds (st : RState) (v : Value) (e : RType) (i j k : Int)
    (hv : v.typecode = some (.slice e)) :
    (toU64 j < toU64 i ∨ st.mem.loadWord (v.value + 16) < toU64 j →
      v.sliceOp st i j = (st, .error .sliceOutOfRange)) ∧
    (¬(toU64 j < toU64 i ∨ st.mem.loadWord (v.value + 16) < toU64 j) →
      ∃ (st' : RState) (a : Nat),
        v.sliceOp st i j = (st', .ok ⟨v.typecode, a, v.flags⟩) ∧
        st'.mem.loadWord a
          = (st.mem.loadWord v.value + toU64 i * e.size) % 2 ^ 64 ∧
        st'.mem.loadWord (a + 8) = toU64 j - toU64 i ∧
        st'.mem.loadWord (a + 16) = st.mem.loadWord (v.value + 16) - toU64 i ∧
        st'.maps = st.maps ∧
        (∀ x, x < st.mem.nextFree → st'.mem.bytes x = st.mem.bytes x)) ∧
    (toU64 j < toU64 i ∨ toU64 k < toU64 j ∨ st.mem.loadWord (v.value + 8) < toU64 k →
      v.slice3Op st i j k = (st, .error .sliceOutOfRange)) ∧
    (¬(toU64 j < toU64 i ∨ toU64 k < toU64 j ∨
        st.mem.loadWord (v.value + 8) < toU64 k) →
      ∃ (st' : RState) (a : Nat),
        v.slice3Op st i j k = (st', .ok ⟨v.typecode, a, v.flags⟩) ∧
        st'.mem.loadWord a
          = (st.mem.loadWord v.value + toU64 i * e.size) % 2 ^ 64 ∧
        st'.mem.loadWord (a + 8) = toU64 j - toU64 i ∧
        st'.mem.loadWord (a + 16) = toU64 k - toU64 i ∧
        st'.maps = st.maps ∧
        (∀ x, x < st.mem.nextFree → st'.mem.bytes x = st.mem.bytes x)) := by
  have h88 : (2 : Nat) ^ (8 * 8) = 2 ^ 64 := by norm_num
  have hcap : st.mem.loadWord (v.value + 16) < 2 ^ 64 := by
    have h := Mem.loadValue_lt st.mem (v.value + 16) 8
    rw [h88] at h
    exact h
  have hlen : st.mem.loadWord (v.value + 8) < 2 ^ 64 := by
    have h := Mem.loadValue_lt st.mem (v.value + 8) 8
    rw [h88] at h
    exact h
  refine ⟨?_, ?_, ?_, ?_⟩
  · intro hcond
    simp only [Value.sliceOp, hv]
    rw [if_pos hcond]
  · intro hcond
    simp only [Value.sliceOp, hv]
    rw [if_neg hcond]
    have hs := Mem.store3_spec (st.alloc 24).1.mem (st.alloc 24).2
      (st.mem.loadWord v.value + toU64 i * e.size)
      (toU64 j - toU64 i) (st.mem.loadWord (v.value + 16) - toU64 i)
    refine ⟨_, _, rfl, hs.1, ?_, ?_, rfl, ?_⟩
    · simp only [RState.store]
      rw [hs.2.1]
      exact Nat.mod_eq_of_lt (by have := toU64_lt j; omega)
    · simp only [RState.store]
      rw [hs.2.2.1]
      exact Nat.mod_eq_of_lt (by omega)
    · intro x hx
      have hb := hs.2.2.2 x (by left; exact hx)
      simp only [RState.store] at hb ⊢
      rw [hb, RState.alloc_bytes_below st 24 x hx]
  · intro hcond
    simp only [Value.slice3Op, hv]
    rw [if_pos hcond]
  · intro hcond
    simp only [Value.slice3Op, hv]
    rw [if_neg hcond]
    have hs := Mem.store3_spec (st.alloc 24).1.mem (st.alloc 24).2
      (st.mem.loadWord v.value + toU64 i * e.size)
      (toU64 j - toU64 i) (toU64 k - toU64 i)
    refine ⟨_, _, rfl, hs.1, ?_, ?_, rfl, ?_⟩
    · simp only [RState.store]
      rw [hs.2.1]
      exact Nat.mod_eq_of_lt (by have := toU64_lt j; omega)
    · simp only [RState.store]
      rw [hs.2.2.1]
      exact Nat.mod_eq_of_lt (by have := toU64_lt k; omega)
    · intro x hx
      have hb := hs.2.2.2 x (by left; exact hx)
      simp only [RState.store] at hb ⊢
      rw [hb, RState.alloc_bytes_below st 24 x hx]

/-- Witness for C6 over the concrete slice (data 32, len 2, cap 4) of
`stSlice`: `Slice(2,1)` fails with the bounds error, `Slice(1,2)` and
`Slice3(0,1,2)` build fresh headers without touching bytes below the
cursor. -/
theorem c6_slice_bounds_witness :
    Value.sliceOp stSlice vSliceNX 2 1 = (stSlice, .error .sliceOutOfRange) ∧
    (∃ (st' : RState) (a : Nat),
      Value.sliceOp stSlice vSliceNX 1 2 = (st', .ok ⟨vSliceNX.typecode, a, vSliceNX.flags⟩) ∧
      st'.mem.loadWord a = (stSlice.mem.loadWord vSliceNX.value
        + toU64 1 * (RType.prim .Int64 8 true).size) % 2 ^ 64 ∧
      st'.mem.loadWord (a + 8) = toU64 2 - toU64 1 ∧
      st'.mem.loadWord (a + 16) = stSlice.mem.loadWord (vSliceNX.value + 16) - toU64 1 ∧
      st'.maps = stSlice.maps ∧
      (∀ x, x < stSlice.mem.nextFree → st'.mem.bytes x = stSlice.mem.bytes x)) ∧
    (∃ (st' : RState) (a : Nat),
      Value.slice3Op stSlice vSliceNX 0 1 2
        = (st', .ok ⟨vSliceNX.typecode, a, vSliceNX.flags⟩) ∧
      st'.mem.loadWord a = (stSlice.mem.loadWord vSliceNX.value
        + toU64 0 * (RType.prim .Int64 8 true).size) % 2 ^ 64 ∧
      st'.mem.loadWord (a + 8) = toU64 1 - toU64 0 ∧
      st'.mem.loadWord (a + 16) = toU64 2 - toU64 0 ∧
      st'.maps = stSlice.maps ∧
      (∀ x, x < stSlice.mem.nextFree → st'.mem.bytes x = stSlice.mem.bytes x)) := by
  have h1 := c6_slice_bounds stSlice vSliceNX (.prim .Int64 8 true) 2 1 0 rfl
  have h2 := c6_slice_bounds stSlice vSliceNX (.prim .Int64 8 true) 1 2 0 rfl
  have h3 := c6_slice_bounds stSlice vSliceNX (.prim .Int64 8 true) 0 1 2 rfl
  exact ⟨h1.1 (by decide), h2.2.1 (by decide), h3.2.2.2 (by decide)⟩

/-- C6 counterexample: `Slice3(0,3,3)` on a slice with length 2 and
capacity 4 fails with the slice-bounds error although none of the
claim's conditions (`j<i`, `k<j`, capacity exceeded) holds — the source
checks `k` against the length, not the capacity. -/
theorem c6_counterexample :
    (Value.slice3Op stSlice vSliceNX 0 3 3).2 = .error .sliceOutOfRange ∧
    ¬(toU64 3 < toU64 0 ∨ toU64 3 < toU64 3 ∨
      stSlice.mem.loadWord (vSliceNX.value + 16) < toU64 3) := by
  constructor
  · decide
  · decide

/-! Claim C10: MakeSlice rejects negative arguments via the unsigned
conversion, before any allocation. -/

/-- C10: for a slice type and 64-bit `int` arguments, a negative length
or capacity makes `MakeSlice` fail with the slice-bounds error and leave
the state — in particular the allocator — untouched, because the
unsigned conversion turns any negative argument into a value caught by
the `len ≤ cap` / maximum-byte-size guard. -/
theorem c10_makeslice_negative (st : RState) (t : RType) (len cap : Int)
    (ht : t.kind = .Slice)
    (hl1 : -(2 ^ 63) ≤ len) (_hl2 : len < 2 ^ 63)
    (hc1 : -(2 ^ 63) ≤ cap) (hc2 : cap < 2 ^ 63)
    (hneg : len < 0 ∨ cap < 0) :
    makeSlice st t len cap = (st, .error .sliceOutOfRange) := by
  have hmax : ∀ es : Nat, (if es > 1 then ((2 ^ 64 - 1) / 2) / es else (2 ^ 64 - 1) / 2)
      ≤ 2 ^ 63 - 1 := by
    intro es
    have hh : ((2 : Nat) ^ 64 - 1) / 2 = 2 ^ 63 - 1 := by norm_num
    split
    · calc ((2 ^ 64 - 1) / 2) / es ≤ (2 ^ 64 - 1) / 2 := Nat.div_le_self _ _
        _ = 2 ^ 63 - 1 := hh
    · exact le_of_eq hh
  have hguard : toU64 len > toU64 cap ∨
      toU64 cap > (if t.elem.size > 1 then ((2 ^ 64 - 1) / 2) / t.elem.size
        else (2 ^ 64 - 1) / 2) := by
    rcases hneg with h | h
    · rcases lt_or_le cap 0 with hc | hc
      · right
        have := toU64_of_neg cap hc1 hc
        have := hmax t.elem.size
        omega
      · left
        have h1 := toU64_of_neg len hl1 h
        have h2 := toU64_of_nonneg cap hc hc2
        omega
    · right
      have := toU64_of_neg cap hc1 h
      have := hmax t.elem.size
      omega
  simp only [makeSlice]
  rw [if_neg (by simp [ht])]
  rw [if_pos hguard]

/-- Witness for C10: `MakeSlice([]int64, -1, 4)` fails with the bounds
error and the state is returned unchanged. -/
theorem c10_makeslice_negative_witness :
    makeSlice stTriv (.slice (.prim .Int64 8 true)) (-1) 4
      = (stTriv, .error .sliceOutOfRange) :=
  c10_makeslice_negative stTriv (.slice (.prim .Int64 8 true)) (-1) 4 rfl
    (by norm_num) (by norm_num) (by norm_num) (by norm_num) (by norm_num)

/-! Claim C2: failures abort with the state unchanged — except for the
per-element checks of Append. -/

/-- C2 (amended): `Set`, `SetMapIndex` and `MakeSlice` validate before
mutating: whenever they fail, the returned state is exactly the input
state; `Append`'s kind check likewise precedes all mutation.  `Append`'s
element-assignability check, however, runs per element inside the copy
loop, so an `Append` whose later element is not assignable aborts only
after the earlier elements have already been written into the (possibly
reallocated) backing store. -/
theorem c2_validate_before_mutate :
    (∀ (st : RState) (v x : Value) (st' : RState) (e : RErr),
      Value.setOp st v x = (st', .error e) → st' = st) ∧
    (∀ (st : RState) (v key elem : Value) (st' : RState) (e : RErr),
      Value.setMapIndex st v key elem = (st', .error e) → st' = st) ∧
    (∀ (st : RState) (t : RType) (l c : Int) (st' : RState) (e : RErr),
      makeSlice st t l c = (st', .error e) → st' = st) ∧
    (∀ (st : RState) (v : Value) (xs : List Value) (st' : RState) (e : RErr),
      v.kind ≠ .Slice → appendM st v xs = (st', .error e) → st' = st) := by
  refine ⟨?_, ?_, ?_, ?_⟩
  · intro st v x st' e hok
    simp only [Value.setOp] at hok
    split at hok
    · injection hok with h1 h2
      exact h1.symm
    · split at hok
      · injection hok with h1 h2
        exact h1.symm
      · injection hok with h1 h2
        simp at h2
  · intro st v key elem st' e hok
    cases hv : v.typecode with
    | none =>
      simp only [Value.setMapIndex, hv] at hok
      injection hok with h1 h2
      exact h1.symm
    | some t =>
      cases t
      case mapt kt et =>
        simp only [Value.setMapIndex, hv] at hok
        split at hok
        · injection hok with h1 h2
          exact h1.symm
        · split at hok
          · injection hok with h1 h2
            exact h1.symm
          · split at hok
            · split at hok <;> (injection hok with h1 h2; simp at h2)
            · split at hok
              · split at hok <;> (injection hok with h1 h2; simp at h2)
              · split at hok
                · injection hok with h1 h2
                  exact h1.symm
                · split at hok <;> (injection hok with h1 h2; simp at h2)
      all_goals
        simp only [Value.setMapIndex, hv] at hok
        injection hok with h1 h2
        exact h1.symm
  · intro st t l c st' e hok
    simp only [makeSlice] at hok
    split at hok
    · injection hok with h1 h2
      exact h1.symm
    · split at hok <;> split at hok <;>
        first
        | (injection hok with h1 h2; exact h1.symm)
        | (injection hok with h1 h2; simp at h2)
  · intro st v xs st' e hk hok
    simp only [appendM] at hok
    rw [if_pos hk] at hok
    injection hok with h1 h2
    exact h1.symm

/-- Witness for C2's amended theorem: concrete rejected calls whose
returned state is the input state. -/
theorem c2_validate_before_mutate_witness :
    (Value.setOp stTriv vInt64of5 vInt64of5).1 = stTriv ∧
    (Value.setMapIndex stTriv vInt64of5 vInt64of5 vInt64of5).1 = stTriv ∧
    (makeSlice stTriv (.prim .Int64 8 true) 1 2).1 = stTriv ∧
    (appendM stTriv vInt64of5 []).1 = stTriv := by
  have h := c2_validate_before_mutate
  exact ⟨h.1 stTriv vInt64of5 vInt64of5 _ notAddrErr (by rfl),
    h.2.1 stTriv vInt64of5 vInt64of5 vInt64of5 _ (.valueError "SetMapIndex" .Int64) (by rfl),
    h.2.2.1 stTriv (.prim .Int64 8 true) 1 2 _
      (.goPanic "reflect.MakeSlice of non-slice type") (by rfl),
    h.2.2.2 stTriv vInt64of5 [] _ (.valueError "Append" .Int64) (by decide) (by rfl)⟩

/-- A state holding an empty `[]int64` of capacity 2: header (data 32,
len 0, cap 2) at address 8, backing bytes zeroed, cursor at 64. -/
def stApp : RState := ⟨⟨fun a => if a = 8 then 32 else if a = 24 then 2 else 0,
  fun _ => ⟨none, 0⟩, 64⟩, []⟩

/-- The `[]int64` handle over `stApp`. -/
def vApp : Value := ⟨some (.slice (.prim .Int64 8 true)), 8, ⟨false, true⟩⟩

/-- An assignable `int64` element with value 7. -/
def xGood : Value := ⟨some (.prim .Int64 8 true), 7, ⟨false, true⟩⟩

/-- An element of the wrong type (`int8`). -/
def xBad : Value := ⟨some (.prim .Int8 1 true), 1, ⟨false, true⟩⟩

/-- C2 counterexample: `Append` with a good first element and a
non-assignable second element fails — but only after writing the first
element into the original backing store (byte 32 changes from 0 to 7),
so the failure does not precede all writes as the claim states. -/
theorem c2_counterexample :
    (appendM stApp vApp [xGood, xBad]).2 = .error (.goPanic "reflect: cannot set") ∧
    (appendM stApp vApp [xGood, xBad]).1.mem.bytes 32 = 7 ∧
    stApp.mem.bytes 32 = 0 := by
  refine ⟨?_, ?_, ?_⟩ <;> decide

/-! Claims C8 and C9: map lookup dispatch and set/delete round trips. -/

/-- Memory extension: the later memory agrees with the earlier one below
the earlier allocation cursor and keeps the interface heap; allocation
and writes into freshly allocated blocks produce extensions. -/
def MemExt (m m' : Mem) : Prop :=
  m.nextFree ≤ m'.nextFree ∧ (∀ a, a < m.nextFree → m'.bytes a = m.bytes a) ∧
  m'.ifaces = m.ifaces

theorem memExt_refl (m : Mem) : MemExt m m := ⟨le_refl _, fun _ _ => rfl, rfl⟩

theorem alloc_memExt (st : RState) (n : Nat) : MemExt st.mem (st.alloc n).1.mem := by
  refine ⟨by simp [RState.alloc], ?_, rfl⟩
  intro a ha
  exact RState.alloc_bytes_below st n a ha

theorem memExt_byteAt (m m' : Mem) (hext : MemExt m m') (a : Nat)
    (h : a < m.nextFree) : m'.byteAt a = m.byteAt a := by
  simp [Mem.byteAt, hext.2.1 a h]

theorem memExt_loadValue (m m' : Mem) (hext : MemExt m m') (a n : Nat)
    (h : a + n ≤ m.nextFree) : m'.loadValue a n = m.loadValue a n :=
  Mem.loadValue_eq_of_byteAt m m' a n (fun i hi => memExt_byteAt m m' hext _ (by omega))

theorem memExt_loadWord (m m' : Mem) (hext : MemExt m m') (a : Nat)
    (h : a + 8 ≤ m.nextFree) : m'.loadWord a = m.loadWord a :=
  memExt_loadValue m m' hext a 8 h

theorem Mem.loadN_eq_of_byteAt (m m' : Mem) (a n : Nat)
    (h : ∀ i, i < n → m'.byteAt (a + i) = m.byteAt (a + i)) :
    m'.loadN a n = m.loadN a n := by
  induction n generalizing a with
  | zero => rfl
  | succ n ih =>
    simp only [Mem.loadN, List.cons.injEq]
    constructor
    · have := h 0 (by omega)
      simpa using this
    · refine ih (a + 1) (fun i hi => ?_)
      have := h (i + 1) (by omega)
      rwa [show a + (i + 1) = a + 1 + i by omega] at this

theorem memExt_loadN (m m' : Mem) (hext : MemExt m m') (a n : Nat)
    (h : a + n ≤ m.nextFree) : m'.loadN a n = m.loadN a n :=
  Mem.loadN_eq_of_byteAt m m' a n (fun i hi => memExt_byteAt m m' hext _ (by omega))

/-- The memory regions the key dispatch reads, all below the allocation
cursor, so later allocations cannot disturb the dispatch. -/
def KeyStable (st : RState) (key : Value) : Prop :=
  (key.kind = .String → key.value + 16 ≤ st.mem.nextFree ∧
    st.mem.loadWord key.value + st.mem.loadWord (key.value + 8) ≤ st.mem.nextFree) ∧
  ((key.flags.indirect = true ∨ key.tsize > 8) →
    key.value + key.tsize ≤ st.mem.nextFree)

/-- The engine key computed by the shared dispatch of `MapIndex` and
`SetMapIndex`: the string store for string-kind keys, the raw-byte store
for binary-comparable keys, the type-erased store otherwise (where the
key is first read back through `Interface`, which can fail). -/
def keyOfDispatch (st : RState) (key : Value) : Except RErr EKey :=
  if key.kind = .String then .ok (.str (readGoString st key.value))
  else if key.tcIsBinary = true then .ok (.bin (handleBytes st key key.tsize))
  else
    match key.interfaceOp st with
    | .error e => .error e
    | .ok ef => .ok (.gen ef.typ ef.word)

theorem pointer_stable (st st2 : RState) (v : Value) (hext : MemExt st.mem st2.mem)
    (h : v.flags.indirect = true → v.value + 8 ≤ st.mem.nextFree) :
    v.pointer st2 = v.pointer st := by
  unfold Value.pointer
  split
  · exact memExt_loadWord _ _ hext _ (h (by assumption))
  · rfl

theorem readGoString_stable (st st2 : RState) (p : Nat) (hext : MemExt st.mem st2.mem)
    (h1 : p + 16 ≤ st.mem.nextFree)
    (h2 : st.mem.loadWord p + st.mem.loadWord (p + 8) ≤ st.mem.nextFree) :
    readGoString st2 p = readGoString st p := by
  unfold readGoString
  rw [memExt_loadWord _ _ hext p (by omega), memExt_loadWord _ _ hext (p + 8) (by omega)]
  exact memExt_loadN _ _ hext _ _ (by omega)

theorem handleBytes_stable (st st2 : RState) (key : Value) (hext : MemExt st.mem st2.mem)
    (h : (key.flags.indirect = true ∨ key.tsize > 8) →
      key.value + key.tsize ≤ st.mem.nextFree) :
    handleBytes st2 key key.tsize = handleBytes st key key.tsize := by
  unfold handleBytes
  split
  · exact memExt_loadN _ _ hext _ _ (h (by assumption))
  · rfl

theorem valueInterfaceUnsafe_stable (st st2 : RState) (key : Value)
    (hext : MemExt st.mem st2.mem)
    (h : key.flags.indirect = true → key.value + key.tsize ≤ st.mem.nextFree) :
    valueInterfaceUnsafe st2 key = valueInterfaceUnsafe st key := by
  unfold valueInterfaceUnsafe
  split
  · rw [hext.2.2]
  · split
    · rename_i hcond
      rw [Mem.unboxLoop_eq, Mem.unboxLoop_eq,
        memExt_loadValue _ _ hext _ _ (by have := h hcond.1; omega)]
    · rfl

theorem interfaceOp_stable (st st2 : RState) (key : Value)
    (hext : MemExt st.mem st2.mem)
    (h : key.flags.indirect = true → key.value + key.tsize ≤ st.mem.nextFree) :
    key.interfaceOp st2 = key.interfaceOp st := by
  unfold Value.interfaceOp
  split
  · rfl
  · rw [valueInterfaceUnsafe_stable st st2 key hext h]

theorem keyOfDispatch_stable (st st2 : RState) (key : Value)
    (hext : MemExt st.mem st2.mem) (hks : KeyStable st key) :
    keyOfDispatch st2 key = keyOfDispatch st key := by
  unfold keyOfDispatch
  split
  · rename_i hstr
    rw [readGoString_stable st st2 key.value hext (hks.1 hstr).1 (hks.1 hstr).2]
  · split
    · rw [handleBytes_stable st st2 key hext hks.2]
    · rw [interfaceOp_stable st st2 key hext (fun hi => hks.2 (Or.inl hi))]

theorem lookupE_insertE (l : EngineMap) (k : EKey) (bs : List Nat) :
    lookupE (insertE l k bs) k = some bs := by
  unfold insertE removeE
  induction l with
  | nil => simp [lookupE]
  | cons p rest ih =>
    by_cases hp : p.1 = k
    · simp only [List.filter_cons, hp]
      simpa [hp] using ih
    · simp only [List.filter_cons]
      rw [if_pos (by simpa using hp)]
      simpa [lookupE, hp] using ih

theorem lookupE_removeE (l : EngineMap) (k : EKey) :
    lookupE (removeE l k) k = none := by
  unfold removeE
  induction l with
  | nil => rfl
  | cons p rest ih =>
    by_cases hp : p.1 = k
    · simpa [List.filter_cons, hp] using ih
    · simp only [List.filter_cons]
      rw [if_pos (by simpa using hp)]
      simpa [lookupE, hp] using ih

theorem engineSet_mem (st : RState) (mref : Nat) (k : EKey) (bs : List Nat) :
    (engineSet st mref k bs).mem = st.mem := by
  unfold engineSet
  split <;> rfl

theorem engineDel_mem (st : RState) (mref : Nat) (k : EKey) :
    (engineDel st mref k).mem = st.mem := by
  unfold engineDel
  split <;> rfl

theorem engineGet_set_self (st : RState) (mref : Nat) (k : EKey) (bs : List Nat)
    (em : EngineMap) (hem : st.maps.get? mref = some em) :
    engineGet (engineSet st mref k bs) mref k = some bs := by
  have hlt : mref < st.maps.length := by
    rcases List.get?_eq_some.mp hem with ⟨h, _⟩
    exact h
  unfold engineSet engineGet
  rw [hem]
  simp only [List.get?_set_eq_of_lt _ hlt]
  exact lookupE_insertE em k bs

theorem engineGet_del_self (st : RState) (mref : Nat) (k : EKey)
    (em : EngineMap) (hem : st.maps.get? mref = some em) :
    engineGet (engineDel st mref k) mref k = none := by
  have hlt : mref < st.maps.length := by
    rcases List.get?_eq_some.mp hem with ⟨h, _⟩
    exact h
  unfold engineDel engineGet
  rw [hem]
  simp only [List.get?_set_eq_of_lt _ hlt]
  exact lookupE_removeE em k

/-- Behaviour of `MapIndex` on a miss: when the dispatch produces an
engine key and the engine lookup misses, the zero handle is returned. -/
theorem mapIndex_miss_char (st : RState) (v key : Value) (kt et : RType)
    (hv : v.typecode = some (.mapt kt et))
    (hks : KeyStable st key)
    (hptr : v.flags.indirect = true → v.value + 8 ≤ st.mem.nextFree)
    (ek : EKey) (hkt : key.typecode = some kt)
    (hdk : keyOfDispatch st key = .ok ek)
    (hmiss : engineGet st (v.pointer st) ek = none) :
    ∃ st' : RState, Value.mapIndex st v key = (st', .ok Value.zero) := by
  have hext : MemExt st.mem ((newM st et).1).mem := alloc_memExt st et.size
  have hptr2 : Value.pointer (newM st et).1 v = v.pointer st :=
    pointer_stable st (newM st et).1 v hext hptr
  have hmapsEq : ∀ (mref : Nat) (ek2 : EKey),
      engineGet (newM st et).1 mref ek2 = engineGet st mref ek2 := fun _ _ => rfl
  refine ⟨(newM st et).1, ?_⟩
  simp only [Value.mapIndex, hv]
  rw [if_neg (by simp [hkt])]
  by_cases hstr : key.kind = .String
  · rw [if_pos hstr]
    have hrd : readGoString (newM st et).1 key.value = readGoString st key.value :=
      readGoString_stable st (newM st et).1 key.value hext (hks.1 hstr).1 (hks.1 hstr).2
    simp only [keyOfDispatch] at hdk
    rw [if_pos hstr] at hdk
    simp only [Except.ok.injEq] at hdk
    rw [hrd, hptr2, hmapsEq]
    rw [show engineGet st (v.pointer st) (.str (readGoString st key.value)) = none from
      hdk ▸ hmiss]
  · rw [if_neg hstr]
    by_cases hbin : key.tcIsBinary = true
    · rw [if_pos hbin]
      have hhb : handleBytes (newM st et).1 key key.tsize = handleBytes st key key.tsize :=
        handleBytes_stable st (newM st et).1 key hext hks.2
      simp only [keyOfDispatch] at hdk
      rw [if_neg hstr, if_pos hbin] at hdk
      simp only [Except.ok.injEq] at hdk
      rw [hhb, hptr2, hmapsEq]
      rw [show engineGet st (v.pointer st) (.bin (handleBytes st key key.tsize)) = none from
        hdk ▸ hmiss]
    · rw [if_neg hbin]
      have hio : key.interfaceOp (newM st et).1 = key.interfaceOp st :=
        interfaceOp_stable st (newM st et).1 key hext (fun hi => hks.2 (Or.inl hi))
      rw [hio]
      simp only [keyOfDispatch] at hdk
      rw [if_neg hstr, if_neg hbin] at hdk
      cases hif : key.interfaceOp st with
      | error e =>
        rw [hif] at hdk
        simp at hdk
      | ok ef =>
        rw [hif] at hdk
        simp only [Except.ok.injEq] at hdk
        simp only [hptr2, hmapsEq]
        rw [show engineGet st (v.pointer st) (.gen ef.typ ef.word) = none from
          hdk ▸ hmiss]

/-- C8 (amended): `MapIndex` first asserts identity of the key handle's
descriptor with the map's key descriptor (a hard boundary, state
unchanged on failure); when the types match it dispatches on the key
handle's own kind to one of the three engine lookup entry points (string
store, raw-byte store, or type-erased store after reading the key back
through `Interface`); whenever the dispatch itself produces a key, a
missing entry makes `MapIndex` return the zero handle rather than fail.
In the type-erased branch, a key whose accessible flag is clear makes
the `Interface` read fail, so a miss is not panic-free there — which is
where the claim's "never a panic" breaks. -/
theorem c8_mapindex_dispatch (st : RState) (v key : Value) (kt et : RType)
    (hv : v.typecode = some (.mapt kt et))
    (hks : KeyStable st key)
    (hptr : v.flags.indirect = true → v.value + 8 ≤ st.mem.nextFree) :
    (key.typecode ≠ some kt →
      Value.mapIndex st v key
        = (st, .error (.goPanic "reflect.Value.MapIndex: incompatible types for key"))) ∧
    (key.kind = .String →
      keyOfDispatch st key = .ok (.str (readGoString st key.value))) ∧
    (key.kind ≠ .String → key.tcIsBinary = true →
      keyOfDispatch st key = .ok (.bin (handleBytes st key key.tsize))) ∧
    (key.kind ≠ .String → key.tcIsBinary = false → key.flags.exported = true →
      keyOfDispatch st key
        = .ok (.gen (valueInterfaceUnsafe st key).typ (valueInterfaceUnsafe st key).word)) ∧
    (∀ ek : EKey, key.typecode = some kt → keyOfDispatch st key = .ok ek →
      engineGet st (v.pointer st) ek = none →
      ∃ st' : RState, Value.mapIndex st v key = (st', .ok Value.zero)) := by
  refine ⟨?_, ?_, ?_, ?_, ?_⟩
  · intro hne
    simp only [Value.mapIndex, hv]
    rw [if_pos hne]
  · intro hstr
    simp only [keyOfDispatch]
    rw [if_pos hstr]
  · intro hns hbin
    simp only [keyOfDispatch]
    rw [if_neg hns, if_pos hbin]
  · intro hns hnbin hexp
    simp only [keyOfDispatch]
    rw [if_neg hns, if_neg (by simp [hnbin])]
    simp [Value.interfaceOp, hexp]
  · intro ek hkt hdk hmiss
    exact mapIndex_miss_char st v key kt et hv hks hptr ek hkt hdk hmiss

/-- A string-keyed map type `map[string]int64`. -/
def mapTS : RType := .mapt .strg (.prim .Int64 8 true)

/-- A state holding an empty engine map 0 and a string header (data 32,
length 2) at address 0. -/
def stMap : RState := ⟨⟨fun a => if a = 0 then 32 else if a = 8 then 2 else 0,
  fun _ => ⟨none, 0⟩, 64⟩, [[]]⟩

/-- The `map[string]int64` handle over engine map 0. -/
def mMap : Value := ⟨some mapTS, 0, ⟨false, true⟩⟩

/-- A matching string key handle. -/
def kStr : Value := ⟨some .strg, 0, ⟨false, true⟩⟩

/-- A key handle of the wrong declared type (`int64`). -/
def kWrong : Value := ⟨some (.prim .Int64 8 true), 0, ⟨false, true⟩⟩

/-- Witness for C8: the type-mismatch rejection, the string dispatch and
the miss-returns-zero behaviour at a concrete empty map. -/
theorem c8_mapindex_dispatch_witness :
    Value.mapIndex stMap mMap kWrong
      = (stMap, .error (.goPanic "reflect.Value.MapIndex: incompatible types for key")) ∧
    keyOfDispatch stMap kStr = .ok (.str (readGoString stMap kStr.value)) ∧
    (∃ st' : RState, Value.mapIndex stMap mMap kStr = (st', .ok Value.zero)) := by
  have h1 := c8_mapindex_dispatch stMap mMap kWrong .strg (.prim .Int64 8 true) rfl
    ⟨fun h => absurd h (by decide), fun h => absurd h (by decide)⟩
    (fun h => absurd h (by decide))
  have h2 := c8_mapindex_dispatch stMap mMap kStr .strg (.prim .Int64 8 true) rfl
    ⟨fun _ => by decide, fun _ => by decide⟩
    (fun h => absurd h (by decide))
  exact ⟨h1.1 (by decide), h2.2.1 rfl,
    h2.2.2.2.2 (.str (readGoString stMap kStr.value)) rfl (h2.2.1 rfl) (by decide)⟩

/-- A generic-comparison key type: a struct holding a float64 field. -/
def ktGen : RType := .strukt 8 (.cons "" (.prim .Float64 8 false) 0 .nil)

/-- A state with an empty engine map 0 and zeroed memory. -/
def stMapG : RState := ⟨⟨fun _ => 0, fun _ => ⟨none, 0⟩, 64⟩, [[]]⟩

/-- The `map[ktGen]int64` handle over engine map 0. -/
def mMapG : Value := ⟨some (.mapt ktGen (.prim .Int64 8 true)), 0, ⟨false, true⟩⟩

/-- A matching, indirect, non-accessible key handle. -/
def kGenNX : Value := ⟨some ktGen, 0, ⟨true, false⟩⟩

/-- C8 counterexample: with matching key and map types, a lookup with a
generic-strategy key whose accessible flag is clear panics in
`key.Interface()` instead of returning the zero handle — so a missing
key does not always return the zero handle without panic. -/
theorem c8_counterexample :
    kGenNX.typecode = some ktGen ∧
    mMapG.typecode = some (.mapt ktGen (.prim .Int64 8 true)) ∧
    (Value.mapIndex stMapG mMapG kGenNX).2
      = .error (.goPanic "(reflect.Value).Interface: unexported") := by
  refine ⟨rfl, rfl, ?_⟩
  decide

theorem handleBytes_length (st : RState) (x : Value) (size : Nat) :
    (handleBytes st x size).length = size := by
  unfold handleBytes
  split
  · exact Mem.loadN_length _ _ _
  · exact toBytes_length _ _

theorem handleBytes_lt (st : RState) (x : Value) (size : Nat) :
    ∀ b ∈ handleBytes st x size, b < 256 := by
  unfold handleBytes
  split
  · exact Mem.loadN_lt _ _ _
  · exact toBytes_lt _ _

/-- Behaviour of `MapIndex` on a hit: the element box is a fresh
addressable, accessible handle of the element type whose bytes are the
engine-stored bytes. -/
theorem mapIndex_hit_char (st : RState) (v key : Value) (kt et : RType)
    (bs : List Nat)
    (hv : v.typecode = some (.mapt kt et))
    (hks : KeyStable st key)
    (hptr : v.flags.indirect = true → v.value + 8 ≤ st.mem.nextFree)
    (hnf : 0 < st.mem.nextFree)
    (ek : EKey) (hkt : key.typecode = some kt)
    (hdk : keyOfDispatch st key = .ok ek)
    (hhit : engineGet st (v.pointer st) ek = some bs)
    (hlen : bs.length = et.size) (hlt : ∀ b ∈ bs, b < 256) :
    ∃ st' : RState,
      Value.mapIndex st v key = (st', .ok ⟨some et, st.mem.nextFree, ⟨true, true⟩⟩) ∧
      st'.mem.loadN st.mem.nextFree et.size = bs := by
  have hext : MemExt st.mem ((newM st et).1).mem := alloc_memExt st et.size
  have hptr2 : Value.pointer (newM st et).1 v = v.pointer st :=
    pointer_stable st (newM st et).1 v hext hptr
  have hmapsEq : ∀ (mref : Nat) (ek2 : EKey),
      engineGet (newM st et).1 mref ek2 = engineGet st mref ek2 := fun _ _ => rfl
  have htake : bs.take et.size = bs := by
    rw [← hlen]
    exact List.take_length bs
  have hbox : (newM st et).2.value = st.mem.nextFree := rfl
  have helem : Value.elemOp ((newM st et).1.store (newM st et).2.value (bs.take et.size))
      (newM st et).2 = .ok ⟨some et, st.mem.nextFree, ⟨true, true⟩⟩ := by
    simp only [Value.elemOp, newM, pointerTo]
    split
    · rename_i h0
      exfalso
      simp [Value.pointer, RState.alloc] at h0
      omega
    · rfl
  have hload : ((newM st et).1.store (newM st et).2.value
      (bs.take et.size)).mem.loadN st.mem.nextFree et.size = bs := by
    simp only [RState.store, htake, hbox]
    rw [← hlen]
    exact Mem.loadN_storeBytes bs _ _ hlt
  refine ⟨(newM st et).1.store (newM st et).2.value (bs.take et.size), ?_, hload⟩
  simp only [Value.mapIndex, hv]
  rw [if_neg (by simp [hkt])]
  by_cases hstr : key.kind = .String
  · rw [if_pos hstr]
    have hrd : readGoString (newM st et).1 key.value = readGoString st key.value :=
      readGoString_stable st (newM st et).1 key.value hext (hks.1 hstr).1 (hks.1 hstr).2
    simp only [keyOfDispatch] at hdk
    rw [if_pos hstr] at hdk
    simp only [Except.ok.injEq] at hdk
    rw [hrd, hptr2, hmapsEq]
    rw [show engineGet st (v.pointer st) (.str (readGoString st key.value)) = some bs from
      hdk ▸ hhit]
    simp only [helem]
  · rw [if_neg hstr]
    by_cases hbin : key.tcIsBinary = true
    · rw [if_pos hbin]
      have hhb : handleBytes (newM st et).1 key key.tsize = handleBytes st key key.tsize :=
        handleBytes_stable st (newM st et).1 key hext hks.2
      simp only [keyOfDispatch] at hdk
      rw [if_neg hstr, if_pos hbin] at hdk
      simp only [Except.ok.injEq] at hdk
      rw [hhb, hptr2, hmapsEq]
      rw [show engineGet st (v.pointer st) (.bin (handleBytes st key key.tsize))
          = some bs from hdk ▸ hhit]
      simp only [helem]
    · rw [if_neg hbin]
      have hio : key.interfaceOp (newM st et).1 = key.interfaceOp st :=
        interfaceOp_stable st (newM st et).1 key hext (fun hi => hks.2 (Or.inl hi))
      rw [hio]
      simp only [keyOfDispatch] at hdk
      rw [if_neg hstr, if_neg hbin] at hdk
      cases hif : key.interfaceOp st with
      | error e =>
        rw [hif] at hdk
        simp at hdk
      | ok ef =>
        rw [hif] at hdk
        simp only [Except.ok.injEq] at hdk
        simp only [hptr2, hmapsEq]
        rw [show engineGet st (v.pointer st) (.gen ef.typ ef.word) = some bs from
          hdk ▸ hhit]
        simp only [helem]

/-- Characterisation of a successful `SetMapIndex`: the dispatch produced
an engine key, and the resulting state is the engine delete (for the
zero element handle) or the engine store of the element's byte
representation. -/
theorem setMapIndex_ok_char (st : RState) (v key elem : Value) (kt et : RType)
    (st' : RState)
    (hv : v.typecode = some (.mapt kt et))
    (hkt : key.typecode = some kt)
    (hok : Value.setMapIndex st v key elem = (st', .ok ())) :
    ∃ ek : EKey, keyOfDispatch st key = .ok ek ∧
      ((elem = Value.zero ∧ st' = engineDel st (v.pointer st) ek) ∨
       (elem ≠ Value.zero ∧
         st' = engineSet st (v.pointer st) ek (handleBytes st elem elem.tsize))) := by
  simp only [Value.setMapIndex, hv] at hok
  rw [if_neg (by simp [hkt])] at hok
  split at hok
  · exfalso
    injection hok with h1 h2
    simp at h2
  · by_cases hstr : key.kind = .String
    · rw [if_pos hstr] at hok
      refine ⟨.str (readGoString st key.value), by simp [keyOfDispatch, hstr], ?_⟩
      by_cases hdel : elem = Value.zero
      · rw [if_pos hdel] at hok
        injection hok with h1 h2
        exact Or.inl ⟨hdel, h1.symm⟩
      · rw [if_neg hdel] at hok
        injection hok with h1 h2
        exact Or.inr ⟨hdel, h1.symm⟩
    · rw [if_neg hstr] at hok
      by_cases hbin : key.tcIsBinary = true
      · rw [if_pos hbin] at hok
        refine ⟨.bin (handleBytes st key key.tsize),
          by simp [keyOfDispatch, hstr, hbin], ?_⟩
        by_cases hdel : elem = Value.zero
        · rw [if_pos hdel] at hok
          injection hok with h1 h2
          exact Or.inl ⟨hdel, h1.symm⟩
        · rw [if_neg hdel] at hok
          injection hok with h1 h2
          exact Or.inr ⟨hdel, h1.symm⟩
      · rw [if_neg hbin] at hok
        cases hif : key.interfaceOp st with
        | error e =>
          simp only [hif] at hok
          injection hok with h1 h2
          simp at h2
        | ok ef =>
          simp only [hif] at hok
          refine ⟨.gen ef.typ ef.word, by simp [keyOfDispatch, hstr, hbin, hif], ?_⟩
          by_cases hdel : elem = Value.zero
          · rw [if_pos hdel] at hok
            injection hok with h1 h2
            exact Or.inl ⟨hdel, h1.symm⟩
          · rw [if_neg hdel] at hok
            injection hok with h1 h2
            exact Or.inr ⟨hdel, h1.symm⟩

/-- C9: against the spec-modelled engine, a successful
`SetMapIndex(m, k, zero)` is a delete — a following `MapIndex(m, k)`
returns the zero handle — and a successful `SetMapIndex(m, k, v)` with a
valid element of the map's element type stores `v`'s byte
representation, so a following `MapIndex(m, k)` returns a fresh
addressable, accessible handle of the element type holding exactly those
bytes. -/
theorem c9_setmapindex_roundtrip (st : RState) (m k elem : Value) (kt et : RType)
    (hm : m.typecode = some (.mapt kt et))
    (hkt : k.typecode = some kt)
    (em : EngineMap) (hem : st.maps.get? (m.pointer st) = some em)
    (hks : KeyStable st k)
    (hptr : m.flags.indirect = true → m.value + 8 ≤ st.mem.nextFree)
    (hnf : 0 < st.mem.nextFree) :
    (∀ st' : RState, Value.setMapIndex st m k Value.zero = (st', .ok ()) →
      ∃ st'' : RState, Value.mapIndex st' m k = (st'', .ok Value.zero)) ∧
    (∀ st' : RState, elem.typecode = some et → elem ≠ Value.zero →
      Value.setMapIndex st m k elem = (st', .ok ()) →
      ∃ st'' : RState,
        Value.mapIndex st' m k
          = (st'', .ok ⟨some et, st'.mem.nextFree, ⟨true, true⟩⟩) ∧
        st''.mem.loadN st'.mem.nextFree et.size = handleBytes st elem et.size) := by
  constructor
  · intro st' hok
    obtain ⟨ek, hdk, hcase⟩ := setMapIndex_ok_char st m k Value.zero kt et st' hm hkt hok
    rcases hcase with ⟨_, hst'⟩ | ⟨hne, _⟩
    · have hmem : st'.mem = st.mem := by
        rw [hst']
        exact engineDel_mem st (m.pointer st) ek
      have hext : MemExt st.mem st'.mem := by
        rw [hmem]
        exact memExt_refl st.mem
      have hpm : m.pointer st' = m.pointer st := by
        unfold Value.pointer
        rw [hmem]
      have hks' : KeyStable st' k := by
        unfold KeyStable at hks ⊢
        rw [hmem]
        exact hks
      have hptr' : m.flags.indirect = true → m.value + 8 ≤ st'.mem.nextFree := by
        rw [hmem]
        exact hptr
      have hdk' : keyOfDispatch st' k = .ok ek := by
        rw [keyOfDispatch_stable st st' k hext hks, hdk]
      have hmiss : engineGet st' (m.pointer st') ek = none := by
        rw [hpm, hst']
        exact engineGet_del_self st (m.pointer st) ek em hem
      exact mapIndex_miss_char st' m k kt et hm hks' hptr' ek hkt hdk' hmiss
    · exact absurd rfl hne
  · intro st' het hne hok
    obtain ⟨ek, hdk, hcase⟩ := setMapIndex_ok_char st m k elem kt et st' hm hkt hok
    rcases hcase with ⟨hz, _⟩ | ⟨_, hst'⟩
    · exact absurd hz hne
    · have hmem : st'.mem = st.mem := by
        rw [hst']
        exact engineSet_mem st (m.pointer st) ek _
      have hext : MemExt st.mem st'.mem := by
        rw [hmem]
        exact memExt_refl st.mem
      have hpm : m.pointer st' = m.pointer st := by
        unfold Value.pointer
        rw [hmem]
      have hks' : KeyStable st' k := by
        unfold KeyStable at hks ⊢
        rw [hmem]
        exact hks
      have hptr' : m.flags.indirect = true → m.value + 8 ≤ st'.mem.nextFree := by
        rw [hmem]
        exact hptr
      have hnf' : 0 < st'.mem.nextFree := by
        rw [hmem]
        exact hnf
      have hdk' : keyOfDispatch st' k = .ok ek := by
        rw [keyOfDispatch_stable st st' k hext hks, hdk]
      have hhit : engineGet st' (m.pointer st') ek
          = some (handleBytes st elem elem.tsize) := by
        rw [hpm, hst']
        exact engineGet_set_self st (m.pointer st) ek _ em hem
      have hsz : elem.tsize = et.size := by
        simp [Value.tsize, het]
      have hlen : (handleBytes st elem elem.tsize).length = et.size := by
        rw [handleBytes_length, hsz]
      obtain ⟨st'', hmi, hload⟩ := mapIndex_hit_char st' m k kt et
        (handleBytes st elem elem.tsize) hm hks' hptr' hnf' ek hkt hdk' hhit hlen
        (handleBytes_lt st elem elem.tsize)
      refine ⟨st'', hmi, ?_⟩
      rw [hload, hsz]

/-- Witness for C9 over the concrete string-keyed map of `stMap`: after
deleting via the zero handle a lookup misses, and after storing the
`int64` value 5 a lookup returns an addressable handle holding its
bytes. -/
theorem c9_setmapindex_roundtrip_witness :
    (∃ st'' : RState,
      Value.mapIndex (Value.setMapIndex stMap mMap kStr Value.zero).1 mMap kStr
        = (st'', .ok Value.zero)) ∧
    (∃ st'' : RState,
      Value.mapIndex (Value.setMapIndex stMap mMap kStr vInt64of5).1 mMap kStr
        = (st'', .ok ⟨some (.prim .Int64 8 true),
            (Value.setMapIndex stMap mMap kStr vInt64of5).1.mem.nextFree, ⟨true, true⟩⟩) ∧
      st''.mem.loadN (Value.setMapIndex stMap mMap kStr vInt64of5).1.mem.nextFree 8
        = handleBytes stMap vInt64of5 8) := by
  have h := c9_setmapindex_roundtrip stMap mMap kStr vInt64of5 .strg (.prim .Int64 8 true)
    rfl rfl [] (by decide)
    ⟨fun _ => by decide, fun _ => by decide⟩ (fun hh => absurd hh (by decide)) (by decide)
  exact ⟨h.1 _ (by rfl), h.2 _ rfl (by decide) (by rfl)⟩
